import Mathlib

/-!
Verification of the I/O core in `src/common/io/io.cpp` (namespace
`mender::common::io`): capability adapters, the synchronous and asynchronous
copy engines, the blocking-stream bridge and the buffered/rewindable reader.

Every definition below is a shallow embedding of the corresponding C++
function; byte buffers are modelled as `List Nat`, `size_t`/`Vsize` as `Nat`
(with the invariants that keep unsigned subtraction meaningful stated as
hypotheses), `int64_t` as `Int`, and `expected<size_t, Error>` as
`Except Err Nat`.
-/

namespace MenderIo

/-- Category of a `std::error_condition`: `generic_category()` (POSIX `errc`
codes and `errno` values) or mender's own common-error category (used by
`error::MakeError(error::ProgrammingError, ...)`). -/
inductive ErrCat where
  | generic
  | menderCommon
deriving DecidableEq

/-- Model of `mender::common::error::Error`: an error condition (category and
value) plus a message.  `error::NoError` is modelled as `Option Err` being
`none` where the C++ returns `error::Error`. -/
structure Err where
  cat : ErrCat
  val : Nat
  msg : String
deriving DecidableEq

/-- POSIX value of `errc::io_error` / `EIO`. -/
def eioCode : Nat := 5

/-- POSIX value of `errc::no_space_on_device` / `ENOSPC`. -/
def enospcCode : Nat := 28

/-- An error built by `Error(make_error_condition(errc::io_error), msg)`. -/
def ioErr (msg : String) : Err := ⟨ErrCat.generic, eioCode, msg⟩

/-- The error built by `Error(make_error_condition(errc::no_space_on_device), "")`
in `ByteWriter::Write`. -/
def noSpaceErr : Err := ⟨ErrCat.generic, enospcCode, ""⟩

/-- An error built by `error::MakeError(error::ProgrammingError, msg)` (mender's
own error category, not `generic_category()`). -/
def progErr (msg : String) : Err := ⟨ErrCat.menderCommon, 1, msg⟩

/-- An error built by `Error(generic_category().default_error_condition(v), msg)`. -/
def errnoErr (v : Nat) (msg : String) : Err := ⟨ErrCat.generic, v, msg⟩

/-! ## In-memory adapters: `ByteReader` and `ByteWriter` -/

/-- State of a `ByteReader`: the fixed byte container `*emitter_` and the
cursor `bytes_read_`. -/
structure ByteReader where
  emitter : List Nat
  bytesRead : Nat
deriving DecidableEq

/-- Shallow embedding of `ByteReader::Read` (io.cpp lines 373-382).  The
request `n` is the iterator distance `end - start` (the C++ asserts
`end > start`, i.e. `1 ≤ n`).  `max_read = emitter_->size() - bytes_read_`
(unsigned subtraction, meaningful under `bytesRead ≤ emitter.length`),
`bytes_to_read = min(iterator_size, max_read)`; the bytes are copied out from
the container starting at the cursor and the cursor advances.  The C++ body
has no error return, so the result is always `Except.ok`. -/
def ByteReader.Read (r : ByteReader) (n : Nat) :
    Except Err (List Nat × Nat) × ByteReader :=
  let maxRead := r.emitter.length - r.bytesRead
  let bytesToRead := min n maxRead
  let out := (r.emitter.drop r.bytesRead).take bytesToRead
  (Except.ok (out, bytesToRead), { r with bytesRead := r.bytesRead + bytesToRead })

/-- Shallow embedding of `ByteReader::Rewind` (io.cpp lines 384-386). -/
def ByteReader.Rewind (r : ByteReader) : ByteReader :=
  { r with bytesRead := 0 }

/-- Drive a `ByteReader` through a schedule of request sizes, collecting each
call's result. -/
def ByteReader.readMany (r : ByteReader) :
    List Nat → List (Except Err (List Nat × Nat)) × ByteReader
  | [] => ([], r)
  | n :: ns =>
    let step := r.Read n
    let rest := step.2.readMany ns
    (step.1 :: rest.1, rest.2)

/-- `std::vector::resize(n)`: truncate or pad with zero bytes to length `n`. -/
def listResize (l : List Nat) (n : Nat) : List Nat :=
  l.take n ++ List.replicate (n - l.length) 0

/-- `std::copy_n(src.begin(), src.length, dst.begin() + pos)`: overwrite `dst`
at offset `pos` with `src`. -/
def listOverwrite (dst : List Nat) (pos : Nat) (src : List Nat) : List Nat :=
  dst.take pos ++ src ++ dst.drop (pos + src.length)

/-- State of a `ByteWriter`: the byte container `*receiver_`, the cursor
`bytes_written_` and the `unlimited_` mode flag (set by `SetUnlimited`). -/
structure ByteWriter where
  receiver : List Nat
  bytesWritten : Nat
  unlimited : Bool
deriving DecidableEq

/-- Shallow embedding of `ByteWriter::Write` (io.cpp lines 392-414).  `data`
is the requested range `[start, end)` (the C++ asserts it is non-empty).
`max_write = receiver_->size() - bytes_written_`; if it is `0` and the writer
is not unlimited the call fails with `errc::no_space_on_device`; otherwise in
unlimited mode the whole range is written (resizing the container when it is
too small) and in bounded mode `min(iterator_size, max_write)` bytes are
written, silently truncating. -/
def ByteWriter.Write (w : ByteWriter) (data : List Nat) :
    Except Err Nat × ByteWriter :=
  let maxWrite := w.receiver.length - w.bytesWritten
  if maxWrite = 0 ∧ w.unlimited = false then
    (Except.error noSpaceErr, w)
  else
    let iteratorSize := data.length
    let bytesToWrite := if w.unlimited then iteratorSize else min iteratorSize maxWrite
    let receiver1 :=
      if w.unlimited ∧ maxWrite < bytesToWrite then
        listResize w.receiver (w.bytesWritten + bytesToWrite)
      else w.receiver
    let receiver2 := listOverwrite receiver1 w.bytesWritten (data.take bytesToWrite)
    (Except.ok bytesToWrite,
      { w with receiver := receiver2, bytesWritten := w.bytesWritten + bytesToWrite })

/-! ## Blocking-stream adapter: `StreamReader` -/

/-- Observable state of the wrapped `std::istream` right after
`is_->read(...)` ran: whether the stream still converts to `true` (no
failbit/badbit — i.e. the read fully succeeded) and `gcount()`, the number of
bytes actually transferred. -/
structure StreamState where
  good : Bool
  gcount : Nat
deriving DecidableEq

/-- Shallow embedding of `StreamReader::Read` (io.cpp lines 565-573).
`isNull` models the `shared_ptr<istream> is_` being the null pointer: the
guard on line 567 is `if (!is_)`, which tests the *pointer* — exactly like the
lazy-open test `if (!is_)` in `FileReader::Rewind` (io.cpp line 576), and
unlike the stream-state tests `if (!(*is_))` (io.cpp line 583) and
`if (!(*(os_.get())))` (`StreamWriter::Write`, io.cpp line 420).  Since line
566 already dereferenced `is_`, the function is only meaningfully entered with
`isNull = false`, making the error branch unreachable: the stream state after
the read (`st.good`) is never consulted and `gcount()` is returned even when
the read failed.  `errnoVal` is the value of `errno` after the read. -/
def StreamReader.Read (isNull : Bool) (st : StreamState) (errnoVal : Nat) :
    Except Err Nat :=
  if isNull then Except.error (errnoErr errnoVal "")
  else Except.ok st.gcount

/-! ## Blocking-stream bridge: `ReaderStreamBuffer::underflow` -/

/-- Return value of `streambuf::underflow`: `char_traits<char>::eof()` or the
next staged byte. -/
inductive UnderflowResult where
  | eofSignal
  | nextByte (b : Nat)
deriving DecidableEq

/-- Get-area state of a `ReaderStreamBuffer`: the staged bytes between
`eback()` and `egptr()` and the offset of `gptr()` within them. -/
structure ReaderStreamBuffer where
  staged : List Nat
  gpos : Nat
deriving DecidableEq

/-- Shallow embedding of `ReaderStreamBuffer::underflow` (io.cpp lines
439-483).  `errno0` is the ambient value of `errno` on entry; the refill
branch sets `errno = 0` and issues one `reader_.Read`, whose outcome is the
parameter `readResult` (the bytes placed into the staging buffer, or the
error) and which leaves `errnoAfter` in `errno` (`0` when the read did not
touch it).  On a read error, `n_read` is forced to `0` (so `eof` is returned)
and, when `errno` was not set by the read itself, it is filled from the
error's code if that code is in `generic_category()`, else with `EIO`.
Returns the underflow result, the new get-area state and the final value of
`errno`. -/
def ReaderStreamBuffer.underflow (sb : ReaderStreamBuffer) (errno0 : Nat)
    (readResult : Except Err (List Nat)) (errnoAfter : Nat) :
    UnderflowResult × ReaderStreamBuffer × Nat :=
  if sb.staged.length ≤ sb.gpos then
    match readResult with
    | Except.ok bytes =>
      let sb1 : ReaderStreamBuffer := ⟨bytes, 0⟩
      ((if bytes.length = 0 then UnderflowResult.eofSignal
        else UnderflowResult.nextByte (bytes.getD 0 0)), sb1, errnoAfter)
    | Except.error e =>
      let errno1 :=
        if errnoAfter ≠ 0 then errnoAfter
        else if e.cat = ErrCat.generic then e.val else eioCode
      let sb1 : ReaderStreamBuffer := ⟨[], 0⟩
      (UnderflowResult.eofSignal, sb1, errno1)
  else
    (UnderflowResult.nextByte (sb.staged.getD sb.gpos 0), sb, errno0)

/-! ## Synchronous copy engine: `Copy` -/

instance {ε α : Type} [DecidableEq ε] [DecidableEq α] : DecidableEq (Except ε α) :=
  fun x y =>
  match x, y with
  | Except.ok a, Except.ok b =>
    if h : a = b then isTrue (by rw [h]) else isFalse (by intro hc; cases hc; exact h rfl)
  | Except.ok _, Except.error _ => isFalse (by intro hc; cases hc)
  | Except.error _, Except.ok _ => isFalse (by intro hc; cases hc)
  | Except.error a, Except.error b =>
    if h : a = b then isTrue (by rw [h]) else isFalse (by intro hc; cases hc; exact h rfl)

/-- One observable capability call made by `Copy`: a `src.Read` returning
`res`, or a `dst.Write` offered `req` bytes and returning `res`. -/
inductive CopyEvent where
  | readEv (res : Except Err Nat)
  | writeEv (req : Nat) (res : Except Err Nat)
deriving DecidableEq

/-- Whether `Copy` returned (with `none` = `NoError`) or the fuel ran out
(the C++ loop still running). -/
inductive CopyOutcome where
  | done (e : Option Err)
  | fuelOut
deriving DecidableEq

/-- The error `Copy` builds for a write that returned `0`. -/
def zeroWriteErr : Err := ioErr "Zero write when copying data"

/-- The error `Copy` builds for a short write. -/
def shortWriteErr : Err := ioErr "Short write when copying data"

/-- The error `Copy` builds when a read reports more bytes than the buffer
holds. -/
def readTooLongErr : Err :=
  progErr "Read returned more bytes than requested. This is a bug in the Read function."

/-- Shallow embedding of the loop of `Copy(dst, src, buffer)` (io.cpp lines
69-93), with `B = buffer.size()`.  The reader and writer are modelled by
call-indexed oracles: `rd k` is the result of the `k`-th `src.Read` into the
buffer, `wr k r` the result of the `k`-th `dst.Write` when offered `r` bytes
(reads and writes alternate, so one index serves both).  `fuel` bounds the
number of loop iterations; the trace of capability calls is returned alongside
the outcome. -/
def CopyRun (B : Nat) (rd : Nat → Except Err Nat) (wr : Nat → Nat → Except Err Nat) :
    Nat → Nat → CopyOutcome × List CopyEvent
  | 0, _ => (CopyOutcome.fuelOut, [])
  | fuel + 1, k =>
    match rd k with
    | Except.error e => (CopyOutcome.done (some e), [CopyEvent.readEv (Except.error e)])
    | Except.ok r =>
      if r = 0 then (CopyOutcome.done none, [CopyEvent.readEv (Except.ok 0)])
      else if B < r then
        (CopyOutcome.done (some readTooLongErr), [CopyEvent.readEv (Except.ok r)])
      else
        match wr k r with
        | Except.error e =>
          (CopyOutcome.done (some e),
           [CopyEvent.readEv (Except.ok r), CopyEvent.writeEv r (Except.error e)])
        | Except.ok wn =>
          if wn = 0 then
            (CopyOutcome.done (some zeroWriteErr),
             [CopyEvent.readEv (Except.ok r), CopyEvent.writeEv r (Except.ok 0)])
          else if r ≠ wn then
            (CopyOutcome.done (some shortWriteErr),
             [CopyEvent.readEv (Except.ok r), CopyEvent.writeEv r (Except.ok wn)])
          else
            let rest := CopyRun B rd wr fuel (k + 1)
            (rest.1, CopyEvent.readEv (Except.ok r) :: CopyEvent.writeEv r (Except.ok wn) :: rest.2)

/-- `Copy(dst, src, buffer)` itself: run the loop from the first call. -/
def Copy (B : Nat) (rd : Nat → Except Err Nat) (wr : Nat → Nat → Except Err Nat)
    (fuel : Nat) : CopyOutcome × List CopyEvent :=
  CopyRun B rd wr fuel 0

/-- A "clean" iteration of `Copy` at oracle index `i`: the read succeeds with
a positive in-bounds count and the write accepts exactly that count.  These
are the iterations on which the loop continues. -/
def goodStep (B : Nat) (rd : Nat → Except Err Nat) (wr : Nat → Nat → Except Err Nat)
    (i : Nat) : Prop :=
  ∃ r, rd i = Except.ok r ∧ 0 < r ∧ r ≤ B ∧ wr i r = Except.ok r

/-! ## Trampoline model: `AsyncReader::RepeatedAsyncRead` -/

/-- The `Repeat` enum returned by a `RepeatedAsyncIoHandler`. -/
inductive Repeat where
  | yes
  | no
deriving DecidableEq

/-- Stack-depth model of `AsyncReader::RepeatedAsyncRead` (io.cpp lines 35-62)
when driven by an `AsyncReader` whose every `AsyncRead` submission succeeds
(returns `NoError`) and completes synchronously — the completion handler is
invoked inline before `AsyncRead` returns, as e.g. the replay path of
`AsyncBufferedReader::AsyncRead` (io.cpp lines 666-691) does — and by a caller
handler that returns `Repeat::Yes` for its first `budget` invocations and
`Repeat::No` afterwards.

Frames are counted along the C++ call chain: a `ScheduleNextRead` frame at
depth `d` whose `repeat == Repeat::Yes` enters the `while` loop and calls
`reader.AsyncRead` (depth `d + 1`), whose synchronous completion invokes the
copied `Functor::operator()` inline (depth `d + 2`, modelled by
`phase = false`); `operator()` calls the caller handler and then calls
`ScheduleNextRead` again at depth `d + 1` relative to itself
(`phase = true`) when the handler requested continuation, or that
`ScheduleNextRead(Repeat::No)` frame returns at once when it did not.  Only
then does the whole tower unwind: each pending `AsyncRead` returns `NoError`
and each pending `while` loop breaks.  Returns the maximum stack depth
reached, `d` being the depth of the current frame. -/
def repeatedAsyncReadDepth : Nat → Bool → Nat → Nat
  | budget, true, d => repeatedAsyncReadDepth budget false (d + 2)
  | 0, false, d => d + 1
  | budget + 1, false, d => repeatedAsyncReadDepth budget true (d + 1)
termination_by budget phase _ => (budget, if phase then 1 else 0)

/-- Maximum stack depth of a `RepeatedAsyncRead` whose handler requests `n`
continuations against an always-synchronously-completing reader; the initial
`func.ScheduleNextRead(Repeat::Yes)` (io.cpp line 61) runs at depth 1. -/
def repeatedAsyncReadMaxDepth (n : Nat) : Nat :=
  repeatedAsyncReadDepth n true 1

/-- Stack-depth model of the same driver when every `AsyncRead` *submission
fails* (returns an error without invoking the handler): the `while` loop in
`ScheduleNextRead` (io.cpp lines 46-53) re-submits in place, each iteration
making one `AsyncRead` call and one handler call at depth `d + 1`, until the
handler stops requesting continuation. -/
def repeatedAsyncReadFailDepth : Nat → Nat → Nat
  | 0, d => d + 1
  | b + 1, d => max (d + 1) (repeatedAsyncReadFailDepth b d)

/-! ## Buffered / rewindable reader: `BufferedReader` -/

/-- Model of the reader wrapped by a `BufferedReader`: the successive chunks
it will deliver (each `Read` hands out the next chunk, a later call returns
`0` bytes once they are exhausted).  The request size passed to `Read` is
advisory for this model — a `Reader` may return any number of bytes up to the
request, and the drivers below always request at least the next chunk's
length, so the model stays inside the `Reader` contract. -/
structure WrappedReader where
  chunks : List (List Nat)
deriving DecidableEq

/-- One `Read` against the wrapped reader: deliver the next chunk, or `0`
bytes when exhausted.  Never fails. -/
def WrappedReader.Read (w : WrappedReader) (_n : Nat) :
    Except Err (List Nat) × WrappedReader :=
  match w.chunks with
  | [] => (Except.ok [], w)
  | c :: rest => (Except.ok c, ⟨rest⟩)

/-- State of a `BufferedReader` (equally of an `AsyncBufferedReader`, whose
fields and `Rewind`/`StopBufferingAndRewind`/`StopBufferingAndDiscard` bodies
are character-for-character the same, io.cpp lines 709-736): the wrapped
reader, the recording buffer `buffer_`, the cursor `bytes_read_` of the
member `ByteReader buffer_reader_` (which reads from `buffer_`), the replay
byte count `buffer_remaining_`, and the flags `rewind_done_`,
`rewind_consumed_`, `stop_done_`.  A fresh reader has an empty buffer and all
flags `false`. -/
structure BufferedReader where
  wrapped : WrappedReader
  buffer : List Nat
  bufferReaderPos : Nat
  bufferRemaining : Nat
  rewindDone : Bool
  rewindConsumed : Bool
  stopDone : Bool
deriving DecidableEq

/-- A freshly constructed `BufferedReader` over a wrapped reader. -/
def BufferedReader.mk0 (w : WrappedReader) : BufferedReader :=
  ⟨w, [], 0, 0, false, false, false⟩

/-- The error of `BufferedReader::Rewind` / `AsyncBufferedReader::Rewind`
when buffering was stopped. -/
def rewindStoppedErr : Err := ioErr "Buffering was stopped, cannot rewind anymore"

/-- The error of `StopBufferingAndDiscard` when a rewind is pending. -/
def discardPendingErr : Err := ioErr "Cannot stop buffering, pending rewind read"

/-- Shallow embedding of `BufferedReader::Read` (io.cpp lines 597-633).  When
a rewind is armed and not yet consumed, bytes are served from
`buffer_reader_` (a `ByteReader` over `buffer_`): the two
`AssertOrReturnUnexpected` consistency checks guard a zero-byte replay read
and an over-long replay read (modelled as returning a programming error);
`buffer_remaining_` is decremented and, when it hits `0`, the replay is
marked consumed and the buffer is cleared if recording was stopped.
Otherwise the wrapped reader is read and — unless recording was stopped — the
returned bytes are appended to `buffer_`. -/
def BufferedReader.Read (st : BufferedReader) (n : Nat) :
    Except Err (List Nat) × BufferedReader :=
  if st.rewindDone ∧ st.rewindConsumed = false then
    let inner : ByteReader := ⟨st.buffer, st.bufferReaderPos⟩
    let res := inner.Read n
    match res.1 with
    | Except.error e => (Except.error e, { st with bufferReaderPos := res.2.bytesRead })
    | Except.ok out =>
      let bytesReadBuffer := out.2
      if bytesReadBuffer = 0 then
        (Except.error (progErr "bytes_read_buffer > 0"), st)
      else if st.bufferRemaining < bytesReadBuffer then
        (Except.error (progErr "buffer_remaining_ >= bytes_read_buffer"), st)
      else
        let remaining1 := st.bufferRemaining - bytesReadBuffer
        let st1 := { st with bufferReaderPos := res.2.bytesRead,
                             bufferRemaining := remaining1 }
        if remaining1 = 0 then
          (Except.ok out.1,
           { st1 with rewindConsumed := true,
                      buffer := if st1.stopDone then [] else st1.buffer })
        else
          (Except.ok out.1, st1)
  else
    let w := st.wrapped.Read n
    match w.1 with
    | Except.error e => (Except.error e, { st with wrapped := w.2 })
    | Except.ok chunk =>
      (Except.ok chunk,
       { st with wrapped := w.2,
                 buffer := if st.stopDone then st.buffer else st.buffer ++ chunk })

/-- Shallow embedding of `BufferedReader::Rewind` (io.cpp lines 635-645) and
of the identical `AsyncBufferedReader::Rewind` (io.cpp lines 709-719): fails
with `rewindStoppedErr` when `stop_done_ && rewind_done_`; otherwise rewinds
`buffer_reader_`, arms the replay over the whole recorded buffer and returns
its size. -/
def BufferedReader.Rewind (st : BufferedReader) : Except Err Nat × BufferedReader :=
  if st.stopDone ∧ st.rewindDone then
    (Except.error rewindStoppedErr, st)
  else
    (Except.ok st.buffer.length,
     { st with bufferReaderPos := 0,
               rewindDone := true,
               bufferRemaining := st.buffer.length,
               rewindConsumed := st.buffer.length == 0 })

/-- Shallow embedding of `BufferedReader::StopBufferingAndRewind`
(io.cpp lines 647-651): `Rewind()` then `stop_done_ = true`. -/
def BufferedReader.StopBufferingAndRewind (st : BufferedReader) :
    Except Err Nat × BufferedReader :=
  let r := st.Rewind
  (r.1, { r.2 with stopDone := true })

/-- Shallow embedding of `BufferedReader::StopBufferingAndDiscard`
(io.cpp lines 653-662) and of the identical
`AsyncBufferedReader::StopBufferingAndDiscard` (io.cpp lines 727-736): fails
when a rewind is armed but not consumed; otherwise stops recording, marks the
replay consumed and clears the buffer.  Note that it does NOT touch
`rewind_done_`. -/
def BufferedReader.StopBufferingAndDiscard (st : BufferedReader) :
    Option Err × BufferedReader :=
  if st.rewindDone ∧ st.rewindConsumed = false then
    (some discardPendingErr, st)
  else
    (none, { st with stopDone := true, rewindConsumed := true, buffer := [] })

/-- First pass of the rewind-replay scenario: read the `BufferedReader` until
the wrapped reader is exhausted (a read returns `0` bytes), collecting the
delivered chunks.  Each call requests at least the next pending chunk's
length so the wrapped-reader model stays inside the `Reader` contract. -/
def recordPass : Nat → BufferedReader → List (List Nat) × BufferedReader
  | 0, st => ([], st)
  | fuel + 1, st =>
    let n := max 1 (st.wrapped.chunks.headI).length
    let res := st.Read n
    match res.1 with
    | Except.error _ => ([], res.2)
    | Except.ok out =>
      if out.length = 0 then ([], res.2)
      else
        let rest := recordPass fuel res.2
        (out :: rest.1, rest.2)

/-- Second pass of the rewind-replay scenario: after `Rewind()`, read with the
request-size schedule `sched` (call `i` requests `sched i` bytes) for as long
as the reader is replaying (`rewind_done_ && !rewind_consumed_`), collecting
the served chunks. -/
def replayPass : Nat → (Nat → Nat) → Nat → BufferedReader → List (List Nat) × BufferedReader
  | 0, _, _, st => ([], st)
  | fuel + 1, sched, i, st =>
    if st.rewindDone ∧ st.rewindConsumed = false then
      let res := st.Read (sched i)
      match res.1 with
      | Except.error _ => ([], res.2)
      | Except.ok out =>
        let rest := replayPass fuel sched (i + 1) res.2
        (out :: rest.1, rest.2)
    else ([], st)

/-! ## Asynchronous copy engine: the three `AsyncCopy` shapes

The external world is modelled by call-state-threading oracles over a `Nat`
state: a synchronous capability maps `(state, count)` to `(result, state')`;
an asynchronous capability maps `(state, count)` to a `SubOutcome` — the
submission either fails (returns an error, handler never invoked) or is
accepted, in which case its single completion delivers an `ExpectedSize`.
Whether a completion is delivered inline or later through the event loop does
not change the sequence of capability calls and handler invocations, which is
what the theorems below are about, so the interpreters consume completions in
submission order, bounded by `fuel`. -/

/-- Outcome of one `AsyncRead`/`AsyncWrite` submission. -/
inductive SubOutcome where
  | submitErr (e : Err)
  | completes (r : Except Err Nat)
deriving DecidableEq

/-- Which of the references captured by a copy functor (`writer`, `reader`,
`data`, `finished_handler`) it currently holds. -/
structure FunctorState where
  hasWriter : Bool
  hasReader : Bool
  hasData : Bool
  hasHandler : Bool
deriving DecidableEq

/-- A default-constructed functor holds nothing: the state after `*this = {}`. -/
def FunctorState.cleared : FunctorState := ⟨false, false, false, false⟩

/-- A live functor holds all four captured references. -/
def FunctorState.full : FunctorState := ⟨true, true, true, true⟩

/-- One invocation of the `finished_handler` of an `AsyncCopy`: the error it
is handed (`none` = `NoError`) and the state of the invoking functor at the
moment the handler runs — `none` when the call is the direct
`finished_handler(err)` made by the `AsyncCopy` body itself on a failed
initial submission (io.cpp lines 177-179 and 368-370), where no functor is
involved. -/
structure HandlerCall where
  err : Option Err
  functorState : Option FunctorState
deriving DecidableEq

/-- `CallFinishedHandler`, common to all three functor classes (io.cpp lines
160-167, 237-244, 273-280 and 292-299): copy `finished_handler` out of the
functor, reset `*this` to a default-constructed functor — dropping the
captured writer, reader and copy-state references — and only then invoke the
handler.  The recorded call therefore carries `FunctorState.cleared`,
whatever the functor held before (`_st`). -/
def callFinishedHandler (_st : FunctorState) (e : Option Err) : HandlerCall :=
  ⟨e, some FunctorState.cleared⟩

/-- Result of running one `AsyncCopy` engine: whether it reached a terminal
call (`done e`, `e = none` meaning `NoError`) or the fuel ran out with the
chain still pending; the handler invocations that occurred; every read
request issued, paired with the value of `data->copied` at submission time;
and the total number of bytes accepted by the writer. -/
structure RunResult where
  outcome : CopyOutcome
  calls : List HandlerCall
  readReqs : List (Nat × Int)
  written : Nat
deriving DecidableEq

/-- The short-write error of `AsyncCopyWriterFunctor::operator()`
(io.cpp line 334). -/
def shortWriteAsyncErr : Err := ioErr "Short write in AsyncCopy"

/-- Shallow embedding of the completion functor of
`AsyncCopy(WriterPtr, AsyncReaderPtr, ...)` (io.cpp lines 118-173): the
sync-writer/async-reader shape.  `wr` is the synchronous writer, `sub` the
async reader's submission oracle, `limit`/`B` the fields of the shared
`CopyData` (`B = data->buf.size() = MENDER_BUFSIZE`), `sw`/`sr` the oracle
states, `copied` the running `data->copied`, and the last argument the
`ExpectedSize` just delivered to `operator()`.  Each continuation submits
`AsyncRead(buf.begin(), buf.begin() + to_copy)` with
`to_copy = min(limit - copied, B)` (the `size_t` cast of a negative value is
unreachable while reader and writer respect their contracts). -/
def runAloop (wr : Nat → Nat → Except Err Nat × Nat) (sub : Nat → Nat → SubOutcome × Nat)
    (limit B : Int) :
    Nat → Nat → Nat → Int → Except Err Nat → RunResult
  | _fuel, _sw, _sr, _copied, Except.error e =>
    ⟨CopyOutcome.done (some e), [callFinishedHandler FunctorState.full (some e)], [], 0⟩
  | fuel, sw, sr, copied, Except.ok r =>
    if r = 0 then
      ⟨CopyOutcome.done none, [callFinishedHandler FunctorState.full none], [], 0⟩
    else
      let w := wr sw r
      match w.1 with
      | Except.error e =>
        ⟨CopyOutcome.done (some e), [callFinishedHandler FunctorState.full (some e)], [], 0⟩
      | Except.ok n =>
        if n ≠ r then
          ⟨CopyOutcome.done (some shortWriteErr),
           [callFinishedHandler FunctorState.full (some shortWriteErr)], [], n⟩
        else
          let copied1 := copied + (n : Int)
          let toCopy := min (limit - copied1) B
          if toCopy = 0 then
            ⟨CopyOutcome.done none, [callFinishedHandler FunctorState.full none], [], n⟩
          else
            let s := sub sr toCopy.toNat
            match s.1 with
            | SubOutcome.submitErr e =>
              ⟨CopyOutcome.done (some e), [callFinishedHandler FunctorState.full (some e)],
               [(toCopy.toNat, copied1)], n⟩
            | SubOutcome.completes r1 =>
              match fuel with
              | 0 => ⟨CopyOutcome.fuelOut, [], [(toCopy.toNat, copied1)], n⟩
              | f + 1 =>
                let rest := runAloop wr sub limit B f w.2 s.2 copied1 r1
                ⟨rest.outcome, rest.calls, (toCopy.toNat, copied1) :: rest.readReqs,
                 n + rest.written⟩

/-- Shallow embedding of `AsyncCopy(WriterPtr dst, AsyncReaderPtr src,
finished_handler, stop_after)` (io.cpp lines 115-180): build the shared
`CopyData`, submit the initial `AsyncRead` of `min(limit, B)` bytes and — on
submission failure — call `finished_handler(err)` directly (no functor
involved); otherwise hand completions to the functor loop. -/
def runA (wr : Nat → Nat → Except Err Nat × Nat) (sub : Nat → Nat → SubOutcome × Nat)
    (limit B : Int) (sw sr : Nat) (fuel : Nat) : RunResult :=
  let toCopy := min limit B
  let s := sub sr toCopy.toNat
  match s.1 with
  | SubOutcome.submitErr e =>
    ⟨CopyOutcome.done (some e), [⟨some e, none⟩], [(toCopy.toNat, 0)], 0⟩
  | SubOutcome.completes r =>
    let rest := runAloop wr sub limit B fuel sw s.2 0 r
    ⟨rest.outcome, rest.calls, (toCopy.toNat, 0) :: rest.readReqs, rest.written⟩

/-- Shallow embedding of the completion functor of
`AsyncCopy(AsyncWriterPtr dst, ReaderPtr src, ...)` (io.cpp lines 191-255):
the async-writer/sync-reader shape.  `rd` is the synchronous reader, `subW`
the async writer's submission oracle, `expectedWritten` the functor field of
the same name, and the last argument the `ExpectedSize` delivered for the
previous `AsyncWrite`. -/
def runBloop (rd : Nat → Nat → Except Err Nat × Nat) (subW : Nat → Nat → SubOutcome × Nat)
    (limit B : Int) :
    Nat → Nat → Nat → Int → Nat → Except Err Nat → RunResult
  | _fuel, _sr, _sw, _copied, _expectedWritten, Except.error e =>
    ⟨CopyOutcome.done (some e), [callFinishedHandler FunctorState.full (some e)], [], 0⟩
  | fuel, sr, sw, copied, expectedWritten, Except.ok n =>
    if n ≠ expectedWritten then
      ⟨CopyOutcome.done (some shortWriteErr),
       [callFinishedHandler FunctorState.full (some shortWriteErr)], [], n⟩
    else
      let copied1 := copied + (n : Int)
      let toCopy := min (limit - copied1) B
      if toCopy = 0 then
        ⟨CopyOutcome.done none, [callFinishedHandler FunctorState.full none], [], n⟩
      else
        let rres := rd sr toCopy.toNat
        match rres.1 with
        | Except.error e =>
          ⟨CopyOutcome.done (some e), [callFinishedHandler FunctorState.full (some e)],
           [(toCopy.toNat, copied1)], n⟩
        | Except.ok r =>
          if r = 0 then
            ⟨CopyOutcome.done none, [callFinishedHandler FunctorState.full none],
             [(toCopy.toNat, copied1)], n⟩
          else
            let s := subW sw r
            match s.1 with
            | SubOutcome.submitErr e =>
              ⟨CopyOutcome.done (some e), [callFinishedHandler FunctorState.full (some e)],
               [(toCopy.toNat, copied1)], n⟩
            | SubOutcome.completes w1 =>
              match fuel with
              | 0 => ⟨CopyOutcome.fuelOut, [], [(toCopy.toNat, copied1)], n⟩
              | f + 1 =>
                let rest := runBloop rd subW limit B f rres.2 s.2 copied1 r w1
                ⟨rest.outcome, rest.calls, (toCopy.toNat, copied1) :: rest.readReqs,
                 n + rest.written⟩

/-- Shallow embedding of `AsyncCopy(AsyncWriterPtr dst, ReaderPtr src,
finished_handler, stop_after)` (io.cpp lines 191-255): the engine starts by
invoking the functor inline with a successful write of `0` bytes and
`expected_written = 0` (`Functor initial {dst, src, finished_handler, data, 0};
initial(0);`). -/
def runB (rd : Nat → Nat → Except Err Nat × Nat) (subW : Nat → Nat → SubOutcome × Nat)
    (limit B : Int) (sr sw : Nat) (fuel : Nat) : RunResult :=
  runBloop rd subW limit B fuel sr sw 0 0 (Except.ok 0)

/-- The two alternating completion functors of the both-async shape: a
pending `AsyncCopyReaderFunctor` completion carrying the read's
`ExpectedSize`, or a pending `AsyncCopyWriterFunctor` completion carrying
`expected_written` and the write's `ExpectedSize`. -/
inductive PhaseC where
  | rdPhase (r : Except Err Nat)
  | wrPhase (expected : Nat) (w : Except Err Nat)

/-- Shallow embedding of `AsyncCopyReaderFunctor::operator()` (io.cpp lines
308-325) and `AsyncCopyWriterFunctor::operator()` (io.cpp lines 327-354),
alternating: a completed read of `0` bytes finishes with `NoError`, a
positive read submits an `AsyncWrite` of exactly the bytes read, a completed
write must match `expected_written` (else `shortWriteAsyncErr`), advances
`data->copied` and submits the next `AsyncRead` of `min(limit - copied, B)`
bytes unless the limit is reached. -/
def runCloop (subR subW : Nat → Nat → SubOutcome × Nat) (limit B : Int) :
    Nat → Nat → Nat → Int → PhaseC → RunResult
  | _fuel, _sr, _sw, _copied, PhaseC.rdPhase (Except.error e) =>
    ⟨CopyOutcome.done (some e), [callFinishedHandler FunctorState.full (some e)], [], 0⟩
  | fuel, sr, sw, copied, PhaseC.rdPhase (Except.ok r) =>
    if r = 0 then
      ⟨CopyOutcome.done none, [callFinishedHandler FunctorState.full none], [], 0⟩
    else
      let s := subW sw r
      match s.1 with
      | SubOutcome.submitErr e =>
        ⟨CopyOutcome.done (some e), [callFinishedHandler FunctorState.full (some e)], [], 0⟩
      | SubOutcome.completes w1 =>
        match fuel with
        | 0 => ⟨CopyOutcome.fuelOut, [], [], 0⟩
        | f + 1 =>
          let rest := runCloop subR subW limit B f sr s.2 copied (PhaseC.wrPhase r w1)
          ⟨rest.outcome, rest.calls, rest.readReqs, rest.written⟩
  | _fuel, _sr, _sw, _copied, PhaseC.wrPhase _expected (Except.error e) =>
    ⟨CopyOutcome.done (some e), [callFinishedHandler FunctorState.full (some e)], [], 0⟩
  | fuel, sr, sw, copied, PhaseC.wrPhase expected (Except.ok n) =>
    if n ≠ expected then
      ⟨CopyOutcome.done (some shortWriteAsyncErr),
       [callFinishedHandler FunctorState.full (some shortWriteAsyncErr)], [], n⟩
    else
      let copied1 := copied + (n : Int)
      let toCopy := min (limit - copied1) B
      if toCopy = 0 then
        ⟨CopyOutcome.done none, [callFinishedHandler FunctorState.full none], [], n⟩
      else
        let s := subR sr toCopy.toNat
        match s.1 with
        | SubOutcome.submitErr e =>
          ⟨CopyOutcome.done (some e), [callFinishedHandler FunctorState.full (some e)],
           [(toCopy.toNat, copied1)], n⟩
        | SubOutcome.completes r1 =>
          match fuel with
          | 0 => ⟨CopyOutcome.fuelOut, [], [(toCopy.toNat, copied1)], n⟩
          | f + 1 =>
            let rest := runCloop subR subW limit B f s.2 sw copied1 (PhaseC.rdPhase r1)
            ⟨rest.outcome, rest.calls, (toCopy.toNat, copied1) :: rest.readReqs,
             n + rest.written⟩

/-- Shallow embedding of `AsyncCopy(AsyncWriterPtr dst, AsyncReaderPtr src,
finished_handler, stop_after)` (io.cpp lines 356-371): submit the initial
`AsyncRead` of `min(limit, B)` bytes with an `AsyncCopyReaderFunctor`; on
submission failure call `finished_handler(err)` directly. -/
def runC (subR subW : Nat → Nat → SubOutcome × Nat) (limit B : Int)
    (sr sw : Nat) (fuel : Nat) : RunResult :=
  let toCopy := min limit B
  let s := subR sr toCopy.toNat
  match s.1 with
  | SubOutcome.submitErr e =>
    ⟨CopyOutcome.done (some e), [⟨some e, none⟩], [(toCopy.toNat, 0)], 0⟩
  | SubOutcome.completes r =>
    let rest := runCloop subR subW limit B fuel s.2 sw 0 (PhaseC.rdPhase r)
    ⟨rest.outcome, rest.calls, (toCopy.toNat, 0) :: rest.readReqs, rest.written⟩

/-- The concrete asynchronous byte source used for the copy-limit scenario:
an `AsyncReader` over `avail` remaining bytes whose submissions always
succeed and complete (synchronously or not) with `min(requested, remaining)`
bytes, consuming them. -/
def byteSourceOracle (avail : Nat) : Nat → Nat → SubOutcome × Nat :=
  fun consumed n =>
    (SubOutcome.completes (Except.ok (min n (avail - consumed))),
     consumed + min n (avail - consumed))

/-- The concrete synchronous byte source used for the copy-limit scenario
(shape B): reads return `min(requested, remaining)`. -/
def byteSourceSync (avail : Nat) : Nat → Nat → Except Err Nat × Nat :=
  fun consumed n =>
    (Except.ok (min n (avail - consumed)), consumed + min n (avail - consumed))

/-- A synchronous writer that accepts every byte offered to it. -/
def acceptAllWriter : Nat → Nat → Except Err Nat × Nat :=
  fun s n => (Except.ok n, s)

/-- An asynchronous writer whose submissions always succeed and complete with
the full count. -/
def acceptAllAsyncWriter : Nat → Nat → SubOutcome × Nat :=
  fun s n => (SubOutcome.completes (Except.ok n), s)

/-- The exactly-once / state-released property claimed for every `AsyncCopy`
engine run: a run that reached a terminal call invoked the `finished_handler`
exactly once, handing it the terminal error (`none` = `NoError`); a run that
ran out of fuel (chain still pending) has not invoked it at all; never more
than one invocation occurs; and every invocation happens either directly from
the `AsyncCopy` body (no functor state exists) or from `CallFinishedHandler`
with the functor's captured state already reset. -/
def handlerOnce (res : RunResult) : Prop :=
  (∀ e, res.outcome = CopyOutcome.done e →
    res.calls = [⟨e, some FunctorState.cleared⟩] ∨ res.calls = [⟨e, none⟩]) ∧
  (res.outcome = CopyOutcome.fuelOut → res.calls = []) ∧
  res.calls.length ≤ 1 ∧
  (∀ c ∈ res.calls,
    c.functorState = none ∨ c.functorState = some FunctorState.cleared)

/-- The handler-call trace a copy functor's loop produces as a function of
its outcome: one `CallFinishedHandler`-mediated call carrying the terminal
error when it terminated, none while the chain is still pending. -/
def expectedCalls (o : CopyOutcome) : List HandlerCall :=
  match o with
  | CopyOutcome.done e => [⟨e, some FunctorState.cleared⟩]
  | CopyOutcome.fuelOut => []

/-! ## Theorems -/

/-- Helper: a `ByteReader` whose cursor has reached (or passed) the end of its
container returns `0` bytes from every further read, whatever the schedule. -/
theorem byteReader_drained_readMany (r : ByteReader)
    (h : r.emitter.length ≤ r.bytesRead) :
    ∀ ns, ∀ res ∈ (r.readMany ns).1, res = Except.ok ([], 0) := by
  intro ns
  induction ns generalizing r with
  | nil => intro res hres; simp [ByteReader.readMany] at hres
  | cons n ns ih =>
    intro res hres
    have hmax : r.emitter.length - r.bytesRead = 0 := by omega
    have hcons : (r.readMany (n :: ns)).1 =
        (r.Read n).1 :: ((r.Read n).2.readMany ns).1 := rfl
    rw [hcons] at hres
    rcases List.mem_cons.mp hres with hres1 | hres2
    · rw [hres1]
      simp [ByteReader.Read, hmax]
    · refine ih (r.Read n).2 ?_ res hres2
      simp [ByteReader.Read]
      omega

/-- Claim C9: every `ByteReader::Read` over a fixed container returns
`min(requested length, bytes remaining past the cursor)` — the corresponding
slice of the container — and never an error; and once a read has returned `0`
bytes, every subsequent read without an intervening `Rewind` also returns `0`
bytes (and no error), for any schedule of request sizes. -/
theorem byteReader_read_spec (r : ByteReader) (n : Nat) (hn : 1 ≤ n) :
    (r.Read n).1 = Except.ok
      ((r.emitter.drop r.bytesRead).take (min n (r.emitter.length - r.bytesRead)),
        min n (r.emitter.length - r.bytesRead)) ∧
    (min n (r.emitter.length - r.bytesRead) = 0 →
      ∀ ns, ∀ res ∈ ((r.Read n).2.readMany ns).1, res = Except.ok ([], 0)) := by
  constructor
  · simp [ByteReader.Read]
  · intro h0 ns res hres
    have hle : r.emitter.length ≤ r.bytesRead := by omega
    refine byteReader_drained_readMany _ ?_ ns res hres
    simp [ByteReader.Read]
    omega

/-- Witness for C9: a `ByteReader` over one byte, cursor at the end: a read of
`2` bytes returns `0` bytes, and every subsequent read does too. -/
theorem byteReader_read_spec_witness :
    ((ByteReader.mk [7] 1).Read 2).1 = Except.ok
      (((ByteReader.mk [7] 1).emitter.drop 1).take (min 2 (1 - 1)), min 2 (1 - 1)) ∧
    (min 2 (1 - 1) = 0 →
      ∀ ns, ∀ res ∈ (((ByteReader.mk [7] 1).Read 2).2.readMany ns).1,
        res = Except.ok ([], 0)) :=
  byteReader_read_spec (ByteReader.mk [7] 1) 2 (by decide)

/-- Claim C10: a bounded `ByteWriter` (limited mode) with remaining capacity
`cap = receiver.size - bytes_written`: when `cap > 0` the write succeeds and
returns `min(requested length, cap)` — silently short when `cap` is smaller
than the non-empty requested range — and the no-space error is returned
exactly when `cap = 0`. -/
theorem byteWriter_bounded_short_write (w : ByteWriter) (data : List Nat)
    (hmode : w.unlimited = false) (hinv : w.bytesWritten ≤ w.receiver.length)
    (hd : 1 ≤ data.length) :
    (0 < w.receiver.length - w.bytesWritten →
      (w.Write data).1 =
        Except.ok (min data.length (w.receiver.length - w.bytesWritten))) ∧
    ((w.Write data).1 = Except.error noSpaceErr ↔
      w.receiver.length - w.bytesWritten = 0) := by
  constructor
  · intro hcap
    have hne : ¬ (w.receiver.length - w.bytesWritten = 0) := by omega
    simp [ByteWriter.Write, hmode, hne]
  · constructor
    · intro herr
      by_contra hne
      simp [ByteWriter.Write, hmode, hne] at herr
    · intro hcap
      simp [ByteWriter.Write, hmode, hcap]

/-- Witness for C10: a bounded writer over a 3-byte container with 2 bytes
already written (capacity 1) offered 2 bytes: accepts exactly 1 byte; and the
no-space error does not occur. -/
theorem byteWriter_bounded_short_write_witness :
    (0 < (ByteWriter.mk [0, 0, 0] 2 false).receiver.length - 2 →
      ((ByteWriter.mk [0, 0, 0] 2 false).Write [9, 9]).1 =
        Except.ok (min 2 ((ByteWriter.mk [0, 0, 0] 2 false).receiver.length - 2))) ∧
    (((ByteWriter.mk [0, 0, 0] 2 false).Write [9, 9]).1 = Except.error noSpaceErr ↔
      (ByteWriter.mk [0, 0, 0] 2 false).receiver.length - 2 = 0) :=
  byteWriter_bounded_short_write (ByteWriter.mk [0, 0, 0] 2 false) [9, 9]
    rfl (by decide) (by decide)

/-- Claim C2 (code bug): `StreamReader::Read` never surfaces a stream I/O
failure.  The guard on io.cpp line 567 is `if (!is_)`, which tests the
`shared_ptr` itself — necessarily non-null, since line 566 just dereferenced
it — rather than the stream's failure state, so the error branch is dead and
the function returns `is_->gcount()` unconditionally.  At the failing input —
a stream whose read just failed (`good = false`) having transferred `0`
bytes — the code returns `Except.ok 0` instead of a generic I/O error. -/
theorem streamReader_read_ignores_stream_failure :
    StreamReader.Read false ⟨false, 0⟩ eioCode = Except.ok 0 ∧
    ∀ st errnoVal, StreamReader.Read false st errnoVal = Except.ok st.gcount := by
  exact ⟨rfl, fun st errnoVal => rfl⟩

/-- Claim C8: when the wrapped `Read` of the blocking-stream bridge fails
during a refill, `underflow` reports `eof` to the stream consumer, and the
final value of `errno` is: whatever the failing read itself left in `errno`
(the originating code); else, the error's own code when it belongs to
`generic_category()`; else the generic fallback `EIO`. -/
theorem readerStreamBuffer_underflow_error_to_eof (sb : ReaderStreamBuffer)
    (errno0 : Nat) (e : Err) (errnoAfter : Nat)
    (hrefill : sb.staged.length ≤ sb.gpos) :
    (sb.underflow errno0 (Except.error e) errnoAfter).1 = UnderflowResult.eofSignal ∧
    (sb.underflow errno0 (Except.error e) errnoAfter).2.2 =
      (if errnoAfter ≠ 0 then errnoAfter
       else if e.cat = ErrCat.generic then e.val else eioCode) := by
  simp [ReaderStreamBuffer.underflow, hrefill]

/-- Witness for C8: an empty get area, a read failing with a non-generic
(programming-error category) error that did not set `errno`: `underflow`
returns `eof` and `errno` falls back to `EIO`. -/
theorem readerStreamBuffer_underflow_error_to_eof_witness :
    ((ReaderStreamBuffer.mk [] 0).underflow 0 (Except.error (progErr "boom")) 0).1 =
      UnderflowResult.eofSignal ∧
    ((ReaderStreamBuffer.mk [] 0).underflow 0 (Except.error (progErr "boom")) 0).2.2 =
      (if (0 : Nat) ≠ 0 then 0
       else if (progErr "boom").cat = ErrCat.generic then (progErr "boom").val
       else eioCode) :=
  readerStreamBuffer_underflow_error_to_eof (ReaderStreamBuffer.mk [] 0) 0
    (progErr "boom") 0 (by decide)

/-- Helper: the stack depth of `RepeatedAsyncRead` under synchronous inline
completions grows by exactly 3 frames (`ScheduleNextRead` → `AsyncRead` →
`Functor::operator()`) per continuation granted by the handler. -/
theorem repeatedAsyncReadDepth_true_eq :
    ∀ b d, repeatedAsyncReadDepth b true d = d + 3 * b + 3 := by
  intro b
  induction b with
  | zero =>
    intro d
    rw [repeatedAsyncReadDepth, repeatedAsyncReadDepth]
  | succ b ih =>
    intro d
    rw [repeatedAsyncReadDepth, repeatedAsyncReadDepth, ih]
    ring

/-- Counterexample to claim C3: there is no constant bound, independent of the
iteration count, on the call-stack depth of `RepeatedAsyncRead` when every
`AsyncRead` completes synchronously and the handler keeps requesting
continuation — the depth model grows without bound. -/
theorem repeatedAsyncRead_depth_unbounded :
    ¬ ∃ c, ∀ n, repeatedAsyncReadMaxDepth n ≤ c := by
  rintro ⟨c, hc⟩
  have h := hc (c + 1)
  rw [repeatedAsyncReadMaxDepth, repeatedAsyncReadDepth_true_eq] at h
  omega

/-- Claim C3, amended: the `while` loop in `ScheduleNextRead` only prevents
stack growth across *failed submissions* — when every `AsyncRead` returns an
error and the handler keeps requesting continuation, the maximum stack depth
stays one frame above the loop regardless of the iteration count `n`.  When
submissions instead succeed and complete synchronously inline, each granted
continuation re-enters `ScheduleNextRead` from within `Functor::operator()`
from within `AsyncRead`, so the maximum stack depth grows linearly — exactly
`3 * n + 4` frames for `n` continuations — rather than staying constant. -/
theorem repeatedAsyncRead_depth_linear :
    (∀ n, repeatedAsyncReadMaxDepth n = 3 * n + 4) ∧
    (∀ n d, repeatedAsyncReadFailDepth n d = d + 1) := by
  constructor
  · intro n
    rw [repeatedAsyncReadMaxDepth, repeatedAsyncReadDepth_true_eq]
    omega
  · intro n
    induction n with
    | zero => intro d; rfl
    | succ n ih =>
      intro d
      rw [repeatedAsyncReadFailDepth, ih]
      omega

/-- Counterexample to claim C1: on a freshly constructed `BufferedReader`
(no rewind ever performed), `StopBufferingAndDiscard()` succeeds, and the
very next `Rewind()` call SUCCEEDS as well (returning `0`), because
`StopBufferingAndDiscard` never sets `rewind_done_` and the failure guard in
`Rewind` is `stop_done_ && rewind_done_` — contradicting the claim that after
`StopBufferingAndDiscard()` every subsequent `Rewind()` fails. -/
theorem rewind_after_discard_succeeds :
    ((BufferedReader.mk0 ⟨[[1, 2]]⟩).StopBufferingAndDiscard).1 = none ∧
    (((BufferedReader.mk0 ⟨[[1, 2]]⟩).StopBufferingAndDiscard).2.Rewind).1 =
      Except.ok 0 :=
  ⟨rfl, rfl⟩

/-- Claim C1, amended: `Rewind()` (of `BufferedReader` and, by the identical
body, `AsyncBufferedReader`) fails with the state-violation error exactly
when recording has been stopped AND some rewind had previously been armed
(`rewind_done_`) — whether or not that replay ran to completion.
Consequently, after a successful `StopBufferingAndDiscard()`, a subsequent
`Rewind()` fails precisely when a rewind had been performed before the
discard; when none had been, the first `Rewind()` after the discard succeeds
(returning `0`, the buffer having been cleared) and only the rewinds after it
fail. -/
theorem rewind_fails_iff_stopped_and_rewound (st : BufferedReader) :
    ((st.Rewind).1 = Except.error rewindStoppedErr ↔
      st.stopDone = true ∧ st.rewindDone = true) ∧
    ((st.StopBufferingAndDiscard).1 = none →
      (((st.StopBufferingAndDiscard).2.Rewind).1 = Except.error rewindStoppedErr ↔
        st.rewindDone = true) ∧
      (st.rewindDone = false →
        ((st.StopBufferingAndDiscard).2.Rewind).1 = Except.ok 0 ∧
        (((st.StopBufferingAndDiscard).2.Rewind).2.Rewind).1 =
          Except.error rewindStoppedErr)) := by
  constructor
  · cases hsd : st.stopDone <;> cases hrd : st.rewindDone <;>
      simp [BufferedReader.Rewind, hsd, hrd]
  · intro hdisc
    cases hrd : st.rewindDone with
    | false =>
      refine ⟨?_, fun _ => ⟨?_, ?_⟩⟩
      · simp [BufferedReader.StopBufferingAndDiscard, hrd, BufferedReader.Rewind]
      · simp [BufferedReader.StopBufferingAndDiscard, hrd, BufferedReader.Rewind]
      · simp [BufferedReader.StopBufferingAndDiscard, hrd, BufferedReader.Rewind]
    | true =>
      have hcv : st.rewindConsumed = true := by
        cases hcv2 : st.rewindConsumed
        · rw [BufferedReader.StopBufferingAndDiscard] at hdisc
          simp [hrd, hcv2] at hdisc
        · rfl
      refine ⟨?_, ?_⟩
      · simp [BufferedReader.StopBufferingAndDiscard, hrd, hcv, BufferedReader.Rewind]
      · intro h
        simp at h

/-- Witness for the amended C1: a fresh reader with a recorded rewind-free
history — discard succeeds and the first post-discard rewind returns `0`. -/
theorem rewind_fails_iff_stopped_and_rewound_witness :
    (((BufferedReader.mk0 ⟨[]⟩).StopBufferingAndDiscard).2.Rewind).1 =
      Except.ok 0 := by
  have h := rewind_fails_iff_stopped_and_rewound (BufferedReader.mk0 ⟨[]⟩)
  exact ((h.2 rfl).2 rfl).1

/-- Helper: a clean iteration of the `Copy` loop continues with the next
oracle index, contributing one read event and one write event. -/
theorem copyRun_good (B : Nat) (rd : Nat → Except Err Nat) (wr : Nat → Nat → Except Err Nat)
    (f k : Nat) (h : goodStep B rd wr k) :
    (CopyRun B rd wr (f + 1) k).1 = (CopyRun B rd wr f (k + 1)).1 ∧
    (CopyRun B rd wr (f + 1) k).2.length = 2 + (CopyRun B rd wr f (k + 1)).2.length := by
  obtain ⟨r, hr, hpos, hle, hw⟩ := h
  have h0 : ¬ (r = 0) := by omega
  have h1 : ¬ (B < r) := by omega
  simp [CopyRun, hr, h0, h1, hw]
  omega

/-- Helper: `CopyRun` over a clean prefix of `j` iterations reaches oracle
index `k + j` with `j` units of fuel spent and `2 * j` events emitted. -/
theorem copyRun_advance (B : Nat) (rd : Nat → Except Err Nat) (wr : Nat → Nat → Except Err Nat) :
    ∀ j f k, (∀ m, m < j → goodStep B rd wr (k + m)) → j ≤ f →
      (CopyRun B rd wr f k).1 = (CopyRun B rd wr (f - j) (k + j)).1 ∧
      (CopyRun B rd wr f k).2.length =
        2 * j + (CopyRun B rd wr (f - j) (k + j)).2.length := by
  intro j
  induction j with
  | zero => intro f k _ _; simp
  | succ j ih =>
    intro f k hgood hle
    obtain ⟨f', rfl⟩ : ∃ f', f = f' + 1 := ⟨f - 1, by omega⟩
    have hstep := copyRun_good B rd wr f' k (hgood 0 (by omega))
    have hpre : ∀ m, m < j → goodStep B rd wr (k + 1 + m) := by
      intro m hm
      have h2 := hgood (m + 1) (by omega)
      have he : k + (m + 1) = k + 1 + m := by omega
      rwa [he] at h2
    have hrest := ih f' (k + 1) hpre (by omega)
    have e1 : f' + 1 - (j + 1) = f' - j := by omega
    have e2 : k + (j + 1) = k + 1 + j := by omega
    rw [e1, e2]
    constructor
    · rw [hstep.1, hrest.1]
    · rw [hstep.2, hrest.2]
      omega

/-- Helper: a failing read terminates `Copy` with that very error. -/
theorem copyRun_read_error (B : Nat) (rd : Nat → Except Err Nat)
    (wr : Nat → Nat → Except Err Nat) (f k : Nat) (e : Err)
    (hr : rd k = Except.error e) :
    (CopyRun B rd wr (f + 1) k).1 = CopyOutcome.done (some e) ∧
    (CopyRun B rd wr (f + 1) k).2.length = 1 := by
  simp [CopyRun, hr]

/-- Helper: a read of `0` bytes terminates `Copy` with `NoError`. -/
theorem copyRun_read_zero (B : Nat) (rd : Nat → Except Err Nat)
    (wr : Nat → Nat → Except Err Nat) (f k : Nat)
    (hr : rd k = Except.ok 0) :
    (CopyRun B rd wr (f + 1) k).1 = CopyOutcome.done none := by
  simp [CopyRun, hr]

/-- Helper: a failing write terminates `Copy` with that very error. -/
theorem copyRun_write_error (B : Nat) (rd : Nat → Except Err Nat)
    (wr : Nat → Nat → Except Err Nat) (f k r : Nat) (e : Err)
    (hr : rd k = Except.ok r) (hpos : 0 < r) (hle : r ≤ B)
    (hw : wr k r = Except.error e) :
    (CopyRun B rd wr (f + 1) k).1 = CopyOutcome.done (some e) ∧
    (CopyRun B rd wr (f + 1) k).2.length = 2 := by
  have h0 : ¬ (r = 0) := by omega
  have h1 : ¬ (B < r) := by omega
  simp [CopyRun, hr, h0, h1, hw]

/-- Helper: a write accepting fewer bytes than read terminates `Copy` with an
I/O error (the zero-write error for `0`, the short-write error otherwise) and
emits no further events. -/
theorem copyRun_short_write (B : Nat) (rd : Nat → Except Err Nat)
    (wr : Nat → Nat → Except Err Nat) (f k r wn : Nat)
    (hr : rd k = Except.ok r) (hpos : 0 < r) (hle : r ≤ B)
    (hw : wr k r = Except.ok wn) (hshort : wn < r) :
    (CopyRun B rd wr (f + 1) k).1 =
      CopyOutcome.done (some (if wn = 0 then zeroWriteErr else shortWriteErr)) ∧
    (CopyRun B rd wr (f + 1) k).2.length = 2 := by
  have h0 : ¬ (r = 0) := by omega
  have h1 : ¬ (B < r) := by omega
  have h2 : r ≠ wn := by omega
  by_cases hz : wn = 0
  · simp [CopyRun, hr, h0, h1, hw, hz]
  · simp [CopyRun, hr, h0, h1, hw, hz, h2]

/-- Helper: the only way `Copy` returns `NoError` is a clean prefix followed
by a read of `0` bytes within the fuel bound. -/
theorem copyRun_none_implies (B : Nat) (rd : Nat → Except Err Nat)
    (wr : Nat → Nat → Except Err Nat) :
    ∀ f k, (CopyRun B rd wr f k).1 = CopyOutcome.done none →
      ∃ j, j < f ∧ (∀ m, m < j → goodStep B rd wr (k + m)) ∧
        rd (k + j) = Except.ok 0 := by
  intro f
  induction f with
  | zero => intro k h; simp [CopyRun] at h
  | succ f ih =>
    intro k h
    rcases hr : rd k with e | r
    · rw [(copyRun_read_error B rd wr f k e hr).1] at h
      simp at h
    · by_cases h0 : r = 0
      · exact ⟨0, by omega, fun m hm => absurd hm (by omega), by
          rw [Nat.add_zero, hr, h0]⟩
      · by_cases h1 : B < r
        · simp [CopyRun, hr, h0, h1] at h
        · rcases hw : wr k r with e | wn
          · rw [(copyRun_write_error B rd wr f k r e hr (by omega) (by omega) hw).1] at h
            simp at h
          · by_cases h2 : r = wn
            · have hgood : goodStep B rd wr k :=
                ⟨r, hr, by omega, by omega, by rw [hw, h2]⟩
              rw [(copyRun_good B rd wr f k hgood).1] at h
              obtain ⟨j, hj, hpre, hz⟩ := ih (k + 1) h
              refine ⟨j + 1, by omega, ?_, ?_⟩
              · intro m hm
                match m with
                | 0 => simpa using hgood
                | m' + 1 =>
                  have h3 := hpre m' (by omega)
                  have he : k + 1 + m' = k + (m' + 1) := by omega
                  rwa [he] at h3
              · have he : k + 1 + j = k + (j + 1) := by omega
                rwa [he] at hz
            · by_cases hz : wn = 0
              · simp [CopyRun, hr, h0, h1, hw, hz] at h
              · simp [CopyRun, hr, h0, h1, hw, hz, h2] at h

/-- Claim C6: within the fuel bound, synchronous `Copy` returns `NoError` iff
some read returns `0` bytes after a clean prefix (no failure before it); a
reader or writer error after a clean prefix is returned unchanged; and a
write accepting fewer bytes than just read (including `0` for a non-empty
range) makes `Copy` return an I/O error having performed no further reads or
writes — the event trace ends with that write (`2k + 2` events after `k`
clean iterations). -/
theorem copy_spec (B : Nat) (rd : Nat → Except Err Nat) (wr : Nat → Nat → Except Err Nat)
    (fuel : Nat) :
    ((Copy B rd wr fuel).1 = CopyOutcome.done none ↔
      ∃ k, k < fuel ∧ (∀ m, m < k → goodStep B rd wr m) ∧ rd k = Except.ok 0) ∧
    (∀ k e, k < fuel → (∀ m, m < k → goodStep B rd wr m) →
      rd k = Except.error e → (Copy B rd wr fuel).1 = CopyOutcome.done (some e)) ∧
    (∀ k r e, k < fuel → (∀ m, m < k → goodStep B rd wr m) →
      rd k = Except.ok r → 0 < r → r ≤ B → wr k r = Except.error e →
      (Copy B rd wr fuel).1 = CopyOutcome.done (some e)) ∧
    (∀ k r wn, k < fuel → (∀ m, m < k → goodStep B rd wr m) →
      rd k = Except.ok r → 0 < r → r ≤ B → wr k r = Except.ok wn → wn < r →
      (Copy B rd wr fuel).1 =
        CopyOutcome.done (some (if wn = 0 then zeroWriteErr else shortWriteErr)) ∧
      (Copy B rd wr fuel).2.length = 2 * k + 2) := by
  refine ⟨⟨?_, ?_⟩, ?_, ?_, ?_⟩
  · intro h
    obtain ⟨j, hj, hpre, hz⟩ := copyRun_none_implies B rd wr fuel 0 h
    exact ⟨j, hj, fun m hm => by simpa using hpre m hm, by simpa using hz⟩
  · rintro ⟨k, hk, hpre, hz⟩
    have hadv := copyRun_advance B rd wr k fuel 0
      (fun m hm => by simpa using hpre m hm) (by omega)
    obtain ⟨f', hf'⟩ : ∃ f', fuel - k = f' + 1 := ⟨fuel - k - 1, by omega⟩
    have h0k : 0 + k = k := by omega
    rw [Copy, hadv.1, hf', h0k]
    exact copyRun_read_zero B rd wr f' k hz
  · intro k e hk hpre hz
    have hadv := copyRun_advance B rd wr k fuel 0
      (fun m hm => by simpa using hpre m hm) (by omega)
    obtain ⟨f', hf'⟩ : ∃ f', fuel - k = f' + 1 := ⟨fuel - k - 1, by omega⟩
    have h0k : 0 + k = k := by omega
    rw [Copy, hadv.1, hf', h0k]
    exact (copyRun_read_error B rd wr f' k e hz).1
  · intro k r e hk hpre hr hpos hle hw
    have hadv := copyRun_advance B rd wr k fuel 0
      (fun m hm => by simpa using hpre m hm) (by omega)
    obtain ⟨f', hf'⟩ : ∃ f', fuel - k = f' + 1 := ⟨fuel - k - 1, by omega⟩
    have h0k : 0 + k = k := by omega
    rw [Copy, hadv.1, hf', h0k]
    exact (copyRun_write_error B rd wr f' k r e hr hpos hle hw).1
  · intro k r wn hk hpre hr hpos hle hw hshort
    have hadv := copyRun_advance B rd wr k fuel 0
      (fun m hm => by simpa using hpre m hm) (by omega)
    obtain ⟨f', hf'⟩ : ∃ f', fuel - k = f' + 1 := ⟨fuel - k - 1, by omega⟩
    have h0k : 0 + k = k := by omega
    have hterm := copyRun_short_write B rd wr f' k r wn hr hpos hle hw hshort
    constructor
    · rw [Copy, hadv.1, hf', h0k]
      exact hterm.1
    · have h2 := hadv.2
      rw [hf', h0k] at h2
      rw [Copy, h2, hterm.2]

/-- Witness for C6: a 4-byte buffer, a reader delivering 2 bytes then EOF and
a writer accepting everything: `Copy` returns `NoError`. -/
theorem copy_spec_witness :
    (Copy 4 (fun k => if k = 0 then Except.ok 2 else Except.ok 0)
        (fun _ r => Except.ok r) 3).1 = CopyOutcome.done none := by
  apply (copy_spec 4 (fun k => if k = 0 then Except.ok 2 else Except.ok 0)
      (fun _ r => Except.ok r) 3).1.mpr
  refine ⟨1, by omega, ?_, by simp⟩
  intro m hm
  have hm0 : m = 0 := by omega
  subst hm0
  exact ⟨2, by simp, by omega, by omega, by simp⟩

/-- Helper: a `BufferedReader` in recording state (no rewind armed, recording
not stopped) forwards the read to the wrapped reader and appends the
delivered chunk to the buffer, whatever the request size. -/
theorem bufferedReader_record_read (c : List Nat) (cs : List (List Nat))
    (buf : List Nat) (pos rem : Nat) (n : Nat) :
    BufferedReader.Read ⟨⟨c :: cs⟩, buf, pos, rem, false, false, false⟩ n =
      (Except.ok c, ⟨⟨cs⟩, buf ++ c, pos, rem, false, false, false⟩) := by
  simp [BufferedReader.Read, WrappedReader.Read]

/-- Helper: the recording pass delivers exactly the wrapped reader's chunks
and appends them all to the recording buffer, leaving the flags untouched. -/
theorem recordPass_spec :
    ∀ (cs : List (List Nat)) (buf : List Nat) (pos rem : Nat),
      (∀ c ∈ cs, c ≠ []) →
      recordPass (cs.length + 1) ⟨⟨cs⟩, buf, pos, rem, false, false, false⟩ =
        (cs, ⟨⟨[]⟩, buf ++ cs.flatten, pos, rem, false, false, false⟩) := by
  intro cs
  induction cs with
  | nil =>
    intro buf pos rem _
    simp [recordPass, BufferedReader.Read, WrappedReader.Read]
  | cons c cs ih =>
    intro buf pos rem hcs
    have hc : c ≠ [] := hcs c (by simp)
    have hlen : ¬ (c.length = 0) := by
      simpa [List.length_eq_zero] using hc
    have hfuel : (c :: cs).length + 1 = (cs.length + 1) + 1 := by simp
    rw [hfuel, recordPass, bufferedReader_record_read]
    dsimp only
    rw [if_neg hlen, ih (buf ++ c) pos rem (fun x hx => hcs x (by simp [hx]))]
    simp [List.append_assoc]

/-- Helper: once the replay is consumed, the replay pass serves nothing. -/
theorem replayPass_consumed (fuel : Nat) (sched : Nat → Nat) (i : Nat)
    (st : BufferedReader) (h : st.rewindConsumed = true) :
    (replayPass fuel sched i st).1 = [] := by
  cases fuel <;> simp [replayPass, h]

/-- Helper: a replay in progress serves, across the whole pass, exactly the
recorded bytes past the replay cursor, for any positive request schedule. -/
theorem replayPass_spec (sched : Nat → Nat) (hs : ∀ j, 1 ≤ sched j) :
    ∀ (fuel : Nat) (st : BufferedReader) (i : Nat),
      st.rewindDone = true → st.rewindConsumed = false → st.stopDone = false →
      st.bufferRemaining = st.buffer.length - st.bufferReaderPos →
      st.bufferReaderPos < st.buffer.length →
      st.buffer.length - st.bufferReaderPos ≤ fuel →
      (replayPass fuel sched i st).1.flatten =
        st.buffer.drop st.bufferReaderPos := by
  intro fuel
  induction fuel with
  | zero =>
    intro st i _ _ _ _ hpos hfuel
    omega
  | succ fuel ih =>
    intro st i hrd hrc hsd hrem hpos hfuel
    have hn := hs i
    have hk0 : ¬ (min (sched i) (st.buffer.length - st.bufferReaderPos) = 0) := by
      omega
    have hlt : ¬ (st.bufferRemaining <
        min (sched i) (st.buffer.length - st.bufferReaderPos)) := by
      omega
    rw [replayPass]
    simp only [hrd, hrc, and_self, if_true, true_and]
    by_cases hcons : st.bufferRemaining -
        min (sched i) (st.buffer.length - st.bufferReaderPos) = 0
    · -- this read drains the replay; the recursive call serves nothing
      have hread : st.Read (sched i) = (Except.ok
            ((st.buffer.drop st.bufferReaderPos).take
              (min (sched i) (st.buffer.length - st.bufferReaderPos))),
          { st with
              bufferReaderPos := st.bufferReaderPos +
                min (sched i) (st.buffer.length - st.bufferReaderPos),
              bufferRemaining := st.bufferRemaining -
                min (sched i) (st.buffer.length - st.bufferReaderPos),
              rewindConsumed := true }) := by
        simp [BufferedReader.Read, ByteReader.Read, hrd, hrc, hk0, hlt, hcons, hsd]
      rw [hread]
      dsimp only
      rw [List.flatten_cons, replayPass_consumed _ _ _ _ rfl]
      have hkeq : min (sched i) (st.buffer.length - st.bufferReaderPos) =
          st.buffer.length - st.bufferReaderPos := by omega
      rw [hkeq]
      have hlen : (st.buffer.drop st.bufferReaderPos).length =
          st.buffer.length - st.bufferReaderPos := by simp
      rw [← hlen, List.take_length]
      simp
    · -- the replay continues on the advanced state
      have hread : st.Read (sched i) = (Except.ok
            ((st.buffer.drop st.bufferReaderPos).take
              (min (sched i) (st.buffer.length - st.bufferReaderPos))),
          { st with
              bufferReaderPos := st.bufferReaderPos +
                min (sched i) (st.buffer.length - st.bufferReaderPos),
              bufferRemaining := st.bufferRemaining -
                min (sched i) (st.buffer.length - st.bufferReaderPos) }) := by
        simp [BufferedReader.Read, ByteReader.Read, hrd, hrc, hk0, hlt, hcons]
      rw [hread]
      dsimp only
      rw [List.flatten_cons]
      have h4 : st.bufferRemaining - min (sched i) (st.buffer.length - st.bufferReaderPos) =
          st.buffer.length -
            (st.bufferReaderPos + min (sched i) (st.buffer.length - st.bufferReaderPos)) := by
        omega
      have h5 : st.bufferReaderPos + min (sched i) (st.buffer.length - st.bufferReaderPos) <
          st.buffer.length := by omega
      have h6 : st.buffer.length -
          (st.bufferReaderPos + min (sched i) (st.buffer.length - st.bufferReaderPos)) ≤
          fuel := by omega
      rw [ih { st with
          bufferReaderPos := st.bufferReaderPos +
            min (sched i) (st.buffer.length - st.bufferReaderPos),
          bufferRemaining := st.bufferRemaining -
            min (sched i) (st.buffer.length - st.bufferReaderPos) }
        (i + 1) hrd hrc hsd h4 h5 h6]
      show (st.buffer.drop st.bufferReaderPos).take
          (min (sched i) (st.buffer.length - st.bufferReaderPos)) ++
          st.buffer.drop (st.bufferReaderPos +
            min (sched i) (st.buffer.length - st.bufferReaderPos)) =
          st.buffer.drop st.bufferReaderPos
      rw [← List.drop_drop, List.take_append_drop]

/-- Claim C7: for any byte sequence `S` delivered (in any chunking `cs`, all
chunks non-empty) by the wrapped reader, reading a fresh `BufferedReader`
until the wrapped reader is exhausted, then calling `Rewind()`, then reading
with any positive request schedule until the replay is exhausted, yields
exactly `S` again on the second pass; `Rewind()` reports `S.length`, which is
also the total number of bytes served during the replay. -/
theorem bufferedReader_rewind_replay (cs : List (List Nat)) (sched : Nat → Nat)
    (hcs : ∀ c ∈ cs, c ≠ []) (hs : ∀ j, 1 ≤ sched j) :
    (recordPass (cs.length + 1) (BufferedReader.mk0 ⟨cs⟩)).1.flatten = cs.flatten ∧
    ((recordPass (cs.length + 1) (BufferedReader.mk0 ⟨cs⟩)).2.Rewind).1 =
      Except.ok cs.flatten.length ∧
    (replayPass (cs.flatten.length + 1) sched 0
        ((recordPass (cs.length + 1) (BufferedReader.mk0 ⟨cs⟩)).2.Rewind).2).1.flatten =
      cs.flatten ∧
    (replayPass (cs.flatten.length + 1) sched 0
        ((recordPass (cs.length + 1) (BufferedReader.mk0 ⟨cs⟩)).2.Rewind).2).1.flatten.length =
      cs.flatten.length := by
  have hrec := recordPass_spec cs [] 0 0 hcs
  have hmk : BufferedReader.mk0 ⟨cs⟩ =
      (⟨⟨cs⟩, [], 0, 0, false, false, false⟩ : BufferedReader) := rfl
  rw [hmk, hrec]
  have hrw : (BufferedReader.Rewind ⟨⟨[]⟩, [] ++ cs.flatten, 0, 0, false, false, false⟩) =
      (Except.ok cs.flatten.length,
        ⟨⟨[]⟩, cs.flatten, 0, cs.flatten.length, true, cs.flatten.length == 0, false⟩) := by
    simp [BufferedReader.Rewind]
  have hreplay : (replayPass (cs.flatten.length + 1) sched 0
      (⟨⟨[]⟩, cs.flatten, 0, cs.flatten.length, true, cs.flatten.length == 0,
        false⟩ : BufferedReader)).1.flatten = cs.flatten := by
    by_cases hflat : cs.flatten = []
    · rw [replayPass_consumed _ _ _ _ (by simp [hflat])]
      simp [hflat]
    · have hlen : ¬ (cs.flatten.length = 0) := fun h => hflat (List.length_eq_zero.mp h)
      have h := replayPass_spec sched hs (cs.flatten.length + 1)
        ⟨⟨[]⟩, cs.flatten, 0, cs.flatten.length, true, cs.flatten.length == 0, false⟩ 0
        rfl
        (by show (cs.flatten.length == 0) = false
            simp only [beq_eq_false_iff_ne, ne_eq]
            exact hlen)
        rfl
        (by show cs.flatten.length = cs.flatten.length - 0; omega)
        (by show 0 < cs.flatten.length; omega)
        (by show cs.flatten.length - 0 ≤ cs.flatten.length + 1; omega)
      simpa using h
  refine ⟨by simp, by rw [hrw], ?_, ?_⟩
  · rw [hrw]
    exact hreplay
  · rw [hrw, hreplay]

/-- Witness for C7: three chunks `[1], [2, 3], [4]` recorded and replayed
with a constant request size of `2`: the replay serves `[1, 2, 3, 4]` and
`Rewind` reports `4`. -/
theorem bufferedReader_rewind_replay_witness :
    (recordPass ([[1], [2, 3], [4]].length + 1) (BufferedReader.mk0 ⟨[[1], [2, 3], [4]]⟩)).1.flatten =
      [[1], [2, 3], [4]].flatten ∧
    ((recordPass ([[1], [2, 3], [4]].length + 1)
        (BufferedReader.mk0 ⟨[[1], [2, 3], [4]]⟩)).2.Rewind).1 =
      Except.ok [[1], [2, 3], [4]].flatten.length ∧
    (replayPass ([[1], [2, 3], [4]].flatten.length + 1) (fun _ => 2) 0
        ((recordPass ([[1], [2, 3], [4]].length + 1)
          (BufferedReader.mk0 ⟨[[1], [2, 3], [4]]⟩)).2.Rewind).2).1.flatten =
      [[1], [2, 3], [4]].flatten ∧
    (replayPass ([[1], [2, 3], [4]].flatten.length + 1) (fun _ => 2) 0
        ((recordPass ([[1], [2, 3], [4]].length + 1)
          (BufferedReader.mk0 ⟨[[1], [2, 3], [4]]⟩)).2.Rewind).2).1.flatten.length =
      [[1], [2, 3], [4]].flatten.length :=
  bufferedReader_rewind_replay [[1], [2, 3], [4]] (fun _ => 2)
    (by decide) (fun _ => one_le_two)

/-- Helper: every terminal branch of the sync-writer/async-reader copy
functor invokes the handler exactly once through `CallFinishedHandler`, and a
fuel-exhausted (still pending) run has not invoked it. -/
theorem runAloop_calls (wr : Nat → Nat → Except Err Nat × Nat)
    (sub : Nat → Nat → SubOutcome × Nat) (limit B : Int) :
    ∀ fuel sw sr copied r,
      (runAloop wr sub limit B fuel sw sr copied r).calls =
        expectedCalls (runAloop wr sub limit B fuel sw sr copied r).outcome := by
  intro fuel
  induction fuel with
  | zero =>
    intro sw sr copied r
    rcases r with e | r
    · simp [runAloop, expectedCalls, callFinishedHandler]
    · rw [runAloop]
      dsimp only
      repeat' split
      all_goals simp [expectedCalls, callFinishedHandler]
  | succ f ih =>
    intro sw sr copied r
    rcases r with e | r
    · simp [runAloop, expectedCalls, callFinishedHandler]
    · rw [runAloop]
      dsimp only
      repeat' split
      all_goals first
        | exact ih _ _ _ _
        | simp [expectedCalls, callFinishedHandler]

/-- Helper: the async-writer/sync-reader copy functor has the same
exactly-once handler-call discipline. -/
theorem runBloop_calls (rd : Nat → Nat → Except Err Nat × Nat)
    (subW : Nat → Nat → SubOutcome × Nat) (limit B : Int) :
    ∀ fuel sr sw copied expectedWritten w,
      (runBloop rd subW limit B fuel sr sw copied expectedWritten w).calls =
        expectedCalls (runBloop rd subW limit B fuel sr sw copied expectedWritten w).outcome := by
  intro fuel
  induction fuel with
  | zero =>
    intro sr sw copied expectedWritten w
    rcases w with e | n
    · simp [runBloop, expectedCalls, callFinishedHandler]
    · rw [runBloop]
      dsimp only
      repeat' split
      all_goals simp [expectedCalls, callFinishedHandler]
  | succ f ih =>
    intro sr sw copied expectedWritten w
    rcases w with e | n
    · simp [runBloop, expectedCalls, callFinishedHandler]
    · rw [runBloop]
      dsimp only
      repeat' split
      all_goals first
        | exact ih _ _ _ _ _
        | simp [expectedCalls, callFinishedHandler]

/-- Helper: both functors of the both-async copy shape have the same
exactly-once handler-call discipline. -/
theorem runCloop_calls (subR subW : Nat → Nat → SubOutcome × Nat) (limit B : Int) :
    ∀ fuel sr sw copied ph,
      (runCloop subR subW limit B fuel sr sw copied ph).calls =
        expectedCalls (runCloop subR subW limit B fuel sr sw copied ph).outcome := by
  intro fuel
  induction fuel with
  | zero =>
    intro sr sw copied ph
    rcases ph with r | ⟨exp, w⟩
    · rcases r with e | r
      · simp [runCloop, expectedCalls, callFinishedHandler]
      · rw [runCloop]
        dsimp only
        repeat' split
        all_goals simp [expectedCalls, callFinishedHandler]
    · rcases w with e | n
      · simp [runCloop, expectedCalls, callFinishedHandler]
      · rw [runCloop]
        dsimp only
        repeat' split
        all_goals simp [expectedCalls, callFinishedHandler]
  | succ f ih =>
    intro sr sw copied ph
    rcases ph with r | ⟨exp, w⟩
    · rcases r with e | r
      · simp [runCloop, expectedCalls, callFinishedHandler]
      · rw [runCloop]
        dsimp only
        repeat' split
        all_goals first
          | exact ih _ _ _ _
          | simp [expectedCalls, callFinishedHandler]
    · rcases w with e | n
      · simp [runCloop, expectedCalls, callFinishedHandler]
      · rw [runCloop]
        dsimp only
        repeat' split
        all_goals first
          | exact ih _ _ _ _
          | simp [expectedCalls, callFinishedHandler]

/-- Helper: a run whose handler-call trace agrees with `expectedCalls` of its
outcome satisfies the exactly-once / state-released property. -/
theorem handlerOnce_of_calls (res : RunResult)
    (h : res.calls = expectedCalls res.outcome) : handlerOnce res := by
  refine ⟨?_, ?_, ?_, ?_⟩
  · intro e he
    left
    rw [h, he]
    simp [expectedCalls]
  · intro hf
    rw [h, hf]
    simp [expectedCalls]
  · rw [h]
    cases res.outcome <;> simp [expectedCalls]
  · intro c hc
    rw [h] at hc
    cases ho : res.outcome with
    | done e =>
      rw [ho] at hc
      simp [expectedCalls] at hc
      subst hc
      right
      rfl
    | fuelOut =>
      rw [ho] at hc
      simp [expectedCalls] at hc

/-- Helper: the direct-handler shape (failed initial submission, handler
invoked straight from the `AsyncCopy` body) also satisfies the property. -/
theorem handlerOnce_direct (e : Err) (rq : List (Nat × Int)) :
    handlerOnce ⟨CopyOutcome.done (some e), [⟨some e, none⟩], rq, 0⟩ := by
  refine ⟨?_, ?_, ?_, ?_⟩
  · intro e2 he2
    cases he2
    right
    rfl
  · intro hc; cases hc
  · simp
  · intro c hc
    simp at hc
    simp [hc]

/-- Claim C4: for each of the three `AsyncCopy` shapes and every behaviour of
the writer, reader and event loop (arbitrary oracles, arbitrary fuel), the
`finished_handler` is invoked at most once — exactly once, with the terminal
error (`none` = `NoError`), whenever the chain reaches a terminal call, and
never while the chain is still pending — and every invocation reached
through a completion happens via `CallFinishedHandler`, i.e. with the
functor's captured writer/reader/copy-state references already dropped
(`FunctorState.cleared`); the only other invocations are the direct calls
from a failed initial submission, where no engine state exists. -/
theorem asyncCopy_handler_once_state_released
    (wr rd : Nat → Nat → Except Err Nat × Nat)
    (subR subW : Nat → Nat → SubOutcome × Nat)
    (limit B : Int) (s1 s2 : Nat) (fuel : Nat) :
    handlerOnce (runA wr subR limit B s1 s2 fuel) ∧
    handlerOnce (runB rd subW limit B s1 s2 fuel) ∧
    handlerOnce (runC subR subW limit B s1 s2 fuel) := by
  refine ⟨?_, ?_, ?_⟩
  · rw [runA]
    rcases hs : (subR s2 (min limit B).toNat).1 with e | r
    · exact handlerOnce_direct e _
    · exact handlerOnce_of_calls _ (runAloop_calls wr subR limit B fuel s1 _ 0 r)
  · exact handlerOnce_of_calls _ (runBloop_calls rd subW limit B fuel s1 s2 0 0 _)
  · rw [runC]
    rcases hs : (subR s1 (min limit B).toNat).1 with e | r
    · exact handlerOnce_direct e _
    · exact handlerOnce_of_calls _
        (runCloop_calls subR subW limit B fuel _ s2 0 (PhaseC.rdPhase r))

/-- Witness for C4 at a concrete instance: an accept-all writer and a source
completing every submission with `0` bytes — the handler fires exactly once. -/
theorem asyncCopy_handler_once_state_released_witness :
    (runA (fun s n => (Except.ok n, s))
      (fun s _ => (SubOutcome.completes (Except.ok 0), s)) 5 4 0 0 3).calls.length ≤ 1 :=
  (asyncCopy_handler_once_state_released (fun s n => (Except.ok n, s))
    (fun s n => (Except.ok n, s))
    (fun s _ => (SubOutcome.completes (Except.ok 0), s))
    (fun s _ => (SubOutcome.completes (Except.ok 0), s)) 5 4 0 0 3).1.2.2.1

/-- Helper: every read request the sync-writer/async-reader functor submits
is sized `min(limit - copied, B)`, `copied` being `data->copied` at
submission time (recorded alongside the request). -/
theorem runAloop_readReqs (wr : Nat → Nat → Except Err Nat × Nat)
    (sub : Nat → Nat → SubOutcome × Nat) (limit B : Int) :
    ∀ fuel sw sr copied r,
      ∀ p ∈ (runAloop wr sub limit B fuel sw sr copied r).readReqs,
        p.1 = (min (limit - p.2) B).toNat := by
  intro fuel
  induction fuel with
  | zero =>
    intro sw sr copied r
    rcases r with e | r
    · simp [runAloop]
    · rw [runAloop]
      dsimp only
      repeat' split
      all_goals intro p hp
      all_goals first
        | exact absurd hp (List.not_mem_nil p)
        | (simp only [List.mem_singleton] at hp
           subst hp
           rfl)
  | succ f ih =>
    intro sw sr copied r
    rcases r with e | r
    · simp [runAloop]
    · rw [runAloop]
      dsimp only
      repeat' split
      all_goals intro p hp
      all_goals first
        | exact absurd hp (List.not_mem_nil p)
        | (simp only [List.mem_singleton] at hp
           subst hp
           rfl)
        | (rcases List.mem_cons.mp hp with h1 | h2
           · subst h1
             rfl
           · exact ih _ _ _ _ p h2)

/-- Helper: the sync-writer/async-reader functor never lets more than
`limit - copied` further bytes reach the writer, provided reader completions
and writer results respect their capability contracts (never more than
requested/offered). -/
theorem runAloop_written_le (wr : Nat → Nat → Except Err Nat × Nat)
    (sub : Nat → Nat → SubOutcome × Nat) (limit B : Int)
    (hwr : ∀ s n m, (wr s n).1 = Except.ok m → m ≤ n)
    (hsub : ∀ s n r2, (sub s n).1 = SubOutcome.completes (Except.ok r2) → r2 ≤ n)
    (hB : 0 ≤ B) :
    ∀ (fuel sw sr : Nat) (copied : Int) (r : Except Err Nat),
      copied ≤ limit →
      (∀ v : Nat, r = Except.ok v → (v : Int) ≤ limit - copied) →
      ((runAloop wr sub limit B fuel sw sr copied r).written : Int) ≤ limit - copied := by
  intro fuel
  induction fuel with
  | zero =>
    intro sw sr copied r hcop hbound
    rcases r with e | r
    · simp [runAloop]
      omega
    · have hr := hbound r rfl
      rw [runAloop]
      dsimp only
      by_cases h0 : r = 0
      · rw [if_pos h0]
        dsimp only
        omega
      · rw [if_neg h0]
        rcases hw : (wr sw r).1 with e | n
        · dsimp only
          omega
        · have hn := hwr _ _ _ hw
          dsimp only
          by_cases hne : n ≠ r
          · rw [if_pos hne]
            dsimp only
            omega
          · rw [if_neg hne]
            by_cases htc : (limit - (copied + (n : Int))) ⊓ B = 0
            · rw [if_pos htc]
              dsimp only
              omega
            · rw [if_neg htc]
              rcases hs : (sub sr ((limit - (copied + (n : Int))) ⊓ B).toNat).1 with e | r1
              · dsimp only
                omega
              · dsimp only
                omega
  | succ f ih =>
    intro sw sr copied r hcop hbound
    rcases r with e | r
    · simp [runAloop]
      omega
    · have hr := hbound r rfl
      rw [runAloop]
      dsimp only
      by_cases h0 : r = 0
      · rw [if_pos h0]
        dsimp only
        omega
      · rw [if_neg h0]
        rcases hw : (wr sw r).1 with e | n
        · dsimp only
          omega
        · have hn := hwr _ _ _ hw
          dsimp only
          by_cases hne : n ≠ r
          · rw [if_pos hne]
            dsimp only
            omega
          · rw [if_neg hne]
            by_cases htc : (limit - (copied + (n : Int))) ⊓ B = 0
            · rw [if_pos htc]
              dsimp only
              omega
            · rw [if_neg htc]
              rcases hs : (sub sr ((limit - (copied + (n : Int))) ⊓ B).toNat).1 with e | r1
              · dsimp only
                omega
              · dsimp only
                have hcop1 : copied + (n : Int) ≤ limit := by omega
                have hr1 : ∀ v : Nat, r1 = Except.ok v →
                    (v : Int) ≤ limit - (copied + (n : Int)) := by
                  intro v hv
                  subst hv
                  have hv2 := hsub _ _ _ hs
                  have htnn : (0 : Int) ≤ (limit - (copied + (n : Int))) ⊓ B :=
                    le_inf (by omega) hB
                  have hcast : ((((limit - (copied + (n : Int))) ⊓ B).toNat : Int)) =
                      (limit - (copied + (n : Int))) ⊓ B := Int.toNat_of_nonneg htnn
                  have hXle : (limit - (copied + (n : Int))) ⊓ B ≤
                      limit - (copied + (n : Int)) := inf_le_left
                  omega
                have hrec := ih (wr sw r).2
                  (sub sr ((limit - (copied + (n : Int))) ⊓ B).toNat).2
                  (copied + (n : Int)) r1 hcop1 hr1
                push_cast
                omega

/-- Helper: the sync-writer/async-reader engine over an accept-all writer and
an in-memory source of `M ≥ L` bytes, entered with `copied = c` and a full
completion of `min (L - c, B)` bytes, terminates with `NoError` having
written exactly the remaining `L - c` bytes. -/
theorem runAloop_concrete (L B M : Nat) (hB : 1 ≤ B) (hM : L ≤ M) :
    ∀ fuel c sw, c ≤ L → L - c ≤ fuel →
      (runAloop acceptAllWriter (byteSourceOracle M) (L : Int) (B : Int) fuel sw
          (c + min (L - c) B) (c : Int) (Except.ok (min (L - c) B))).outcome =
        CopyOutcome.done none ∧
      (runAloop acceptAllWriter (byteSourceOracle M) (L : Int) (B : Int) fuel sw
          (c + min (L - c) B) (c : Int) (Except.ok (min (L - c) B))).written = L - c := by
  intro fuel
  induction fuel with
  | zero =>
    intro c sw hc hf
    have hk : min (L - c) B = 0 := by omega
    rw [hk, runAloop]
    dsimp only
    rw [if_pos rfl]
    exact ⟨rfl, by show 0 = L - c; omega⟩
  | succ f ih =>
    intro c sw hc hf
    by_cases hk0 : min (L - c) B = 0
    · rw [hk0, runAloop]
      dsimp only
      rw [if_pos rfl]
      exact ⟨rfl, by show 0 = L - c; omega⟩
    · rw [runAloop]
      dsimp only
      rw [if_neg hk0]
      dsimp only [acceptAllWriter]
      rw [if_neg (fun h => h rfl)]
      by_cases hend : c + min (L - c) B = L
      · have htc : ((L : Int) - ((c : Int) + ((min (L - c) B : Nat) : Int))) ⊓ (B : Int)
            = 0 := by
          push_cast
          omega
        rw [if_pos htc]
        exact ⟨rfl, by show min (L - c) B = L - c; omega⟩
      · have htc : ¬ (((L : Int) - ((c : Int) + ((min (L - c) B : Nat) : Int))) ⊓ (B : Int)
            = 0) := by
          push_cast
          omega
        rw [if_neg htc]
        have hreq : (((L : Int) - ((c : Int) + ((min (L - c) B : Nat) : Int))) ⊓ (B : Int)).toNat
            = min (L - (c + min (L - c) B)) B := by
          push_cast
          omega
        rw [hreq]
        dsimp only [byteSourceOracle]
        have hmin2 : min (min (L - (c + min (L - c) B)) B) (M - (c + min (L - c) B))
            = min (L - (c + min (L - c) B)) B := by omega
        rw [hmin2]
        have hrec := ih (c + min (L - c) B) sw (by omega) (by omega)
        rw [Nat.cast_add] at hrec
        refine ⟨?_, ?_⟩
        · exact hrec.1
        · show min (L - c) B + _ = L - c
          rw [hrec.2]
          omega

/-- Helper: every read the async-writer/sync-reader functor issues is sized
`min(limit - copied, B)` with `copied` the recorded `data->copied`. -/
theorem runBloop_readReqs (rd : Nat → Nat → Except Err Nat × Nat)
    (subW : Nat → Nat → SubOutcome × Nat) (limit B : Int) :
    ∀ fuel sr sw copied expectedWritten w,
      ∀ p ∈ (runBloop rd subW limit B fuel sr sw copied expectedWritten w).readReqs,
        p.1 = (min (limit - p.2) B).toNat := by
  intro fuel
  induction fuel with
  | zero =>
    intro sr sw copied expectedWritten w
    rcases w with e | n
    · simp [runBloop]
    · rw [runBloop]
      dsimp only
      repeat' split
      all_goals intro p hp
      all_goals first
        | exact absurd hp (List.not_mem_nil p)
        | (simp only [List.mem_singleton] at hp
           subst hp
           rfl)
  | succ f ih =>
    intro sr sw copied expectedWritten w
    rcases w with e | n
    · simp [runBloop]
    · rw [runBloop]
      dsimp only
      repeat' split
      all_goals intro p hp
      all_goals first
        | exact absurd hp (List.not_mem_nil p)
        | (simp only [List.mem_singleton] at hp
           subst hp
           rfl)
        | (rcases List.mem_cons.mp hp with h1 | h2
           · subst h1
             rfl
           · exact ih _ _ _ _ _ p h2)

/-- Helper: every read the both-async functors issue is sized
`min(limit - copied, B)` with `copied` the recorded `data->copied`. -/
theorem runCloop_readReqs (subR subW : Nat → Nat → SubOutcome × Nat) (limit B : Int) :
    ∀ fuel sr sw copied ph,
      ∀ p ∈ (runCloop subR subW limit B fuel sr sw copied ph).readReqs,
        p.1 = (min (limit - p.2) B).toNat := by
  intro fuel
  induction fuel with
  | zero =>
    intro sr sw copied ph
    rcases ph with r | ⟨exp, w⟩ <;> [rcases r with e | r; rcases w with e | n] <;>
      (rw [runCloop]
       dsimp only
       repeat' split
       all_goals intro p hp
       all_goals first
         | exact absurd hp (List.not_mem_nil p)
         | (simp only [List.mem_singleton] at hp
            subst hp
            rfl))
  | succ f ih =>
    intro sr sw copied ph
    rcases ph with r | ⟨exp, w⟩ <;> [rcases r with e | r; rcases w with e | n] <;>
      (rw [runCloop]
       dsimp only
       repeat' split
       all_goals intro p hp
       all_goals first
         | exact absurd hp (List.not_mem_nil p)
         | (simp only [List.mem_singleton] at hp
            subst hp
            rfl)
         | (rcases List.mem_cons.mp hp with h1 | h2
            · subst h1
              rfl
            · exact ih _ _ _ _ p h2)
         | exact ih _ _ _ _ p hp)

/-- Helper: the async-writer/sync-reader functor never lets more than
`limit - copied` further bytes reach the writer, under the capability
contracts. -/
theorem runBloop_written_le (rd : Nat → Nat → Except Err Nat × Nat)
    (subW : Nat → Nat → SubOutcome × Nat) (limit B : Int)
    (hrd : ∀ s n m, (rd s n).1 = Except.ok m → m ≤ n)
    (hsubW : ∀ s n r2, (subW s n).1 = SubOutcome.completes (Except.ok r2) → r2 ≤ n)
    (hB : 0 ≤ B) :
    ∀ (fuel sr sw : Nat) (copied : Int) (expectedWritten : Nat) (w : Except Err Nat),
      copied ≤ limit →
      (expectedWritten : Int) ≤ limit - copied →
      (∀ v : Nat, w = Except.ok v → v ≤ expectedWritten) →
      ((runBloop rd subW limit B fuel sr sw copied expectedWritten w).written : Int) ≤
        limit - copied := by
  intro fuel
  induction fuel with
  | zero =>
    intro sr sw copied expectedWritten w hcop hexp hbound
    rcases w with e | n
    · simp [runBloop]
      omega
    · have hn := hbound n rfl
      rw [runBloop]
      dsimp only
      by_cases hne : n ≠ expectedWritten
      · rw [if_pos hne]
        dsimp only
        omega
      · rw [if_neg hne]
        by_cases htc : (limit - (copied + (n : Int))) ⊓ B = 0
        · rw [if_pos htc]
          dsimp only
          omega
        · rw [if_neg htc]
          rcases hrr : (rd sr ((limit - (copied + (n : Int))) ⊓ B).toNat).1 with e | r
          · dsimp only
            omega
          · dsimp only
            by_cases hr0 : r = 0
            · rw [if_pos hr0]
              dsimp only
              omega
            · rw [if_neg hr0]
              rcases hsw : (subW sw r).1 with e | w1
              · dsimp only
                omega
              · dsimp only
                omega
  | succ f ih =>
    intro sr sw copied expectedWritten w hcop hexp hbound
    rcases w with e | n
    · simp [runBloop]
      omega
    · have hn := hbound n rfl
      rw [runBloop]
      dsimp only
      by_cases hne : n ≠ expectedWritten
      · rw [if_pos hne]
        dsimp only
        omega
      · rw [if_neg hne]
        by_cases htc : (limit - (copied + (n : Int))) ⊓ B = 0
        · rw [if_pos htc]
          dsimp only
          omega
        · rw [if_neg htc]
          rcases hrr : (rd sr ((limit - (copied + (n : Int))) ⊓ B).toNat).1 with e | r
          · dsimp only
            omega
          · dsimp only
            by_cases hr0 : r = 0
            · rw [if_pos hr0]
              dsimp only
              omega
            · rw [if_neg hr0]
              rcases hsw : (subW sw r).1 with e | w1
              · dsimp only
                omega
              · dsimp only
                have hcop1 : copied + (n : Int) ≤ limit := by omega
                have hrle := hrd _ _ _ hrr
                have htnn : (0 : Int) ≤ (limit - (copied + (n : Int))) ⊓ B :=
                  le_inf (by omega) hB
                have hcast : ((((limit - (copied + (n : Int))) ⊓ B).toNat : Int)) =
                    (limit - (copied + (n : Int))) ⊓ B := Int.toNat_of_nonneg htnn
                have hXle : (limit - (copied + (n : Int))) ⊓ B ≤
                    limit - (copied + (n : Int)) := inf_le_left
                have hrInt : (r : Int) ≤ limit - (copied + (n : Int)) := by omega
                have hw1 : ∀ v : Nat, w1 = Except.ok v → v ≤ r := by
                  intro v hv
                  subst hv
                  exact hsubW _ _ _ hsw
                have hrec := ih (rd sr ((limit - (copied + (n : Int))) ⊓ B).toNat).2
                  (subW sw r).2 (copied + (n : Int)) r w1 hcop1 hrInt hw1
                push_cast
                omega

/-- Helper: the both-async functors never let more than `limit - copied`
further bytes reach the writer, under the capability contracts. -/
theorem runCloop_written_le (subR subW : Nat → Nat → SubOutcome × Nat) (limit B : Int)
    (hsubR : ∀ s n r2, (subR s n).1 = SubOutcome.completes (Except.ok r2) → r2 ≤ n)
    (hsubW : ∀ s n r2, (subW s n).1 = SubOutcome.completes (Except.ok r2) → r2 ≤ n)
    (hB : 0 ≤ B) :
    ∀ (fuel sr sw : Nat) (copied : Int) (ph : PhaseC),
      copied ≤ limit →
      (match ph with
       | PhaseC.rdPhase r => ∀ v : Nat, r = Except.ok v → (v : Int) ≤ limit - copied
       | PhaseC.wrPhase exp w => (exp : Int) ≤ limit - copied ∧
           ∀ v : Nat, w = Except.ok v → v ≤ exp) →
      ((runCloop subR subW limit B fuel sr sw copied ph).written : Int) ≤
        limit - copied := by
  intro fuel
  induction fuel with
  | zero =>
    intro sr sw copied ph hcop hbound
    rcases ph with r | ⟨exp, w⟩
    · rcases r with e | r
      · simp [runCloop]
        omega
      · have hr := hbound r rfl
        rw [runCloop]
        dsimp only
        by_cases hr0 : r = 0
        · rw [if_pos hr0]
          dsimp only
          omega
        · rw [if_neg hr0]
          rcases hsw : (subW sw r).1 with e | w1
          · dsimp only
            omega
          · dsimp only
            omega
    · rcases w with e | n
      · simp [runCloop]
        omega
      · obtain ⟨hexp, hbw⟩ := hbound
        have hn := hbw n rfl
        rw [runCloop]
        dsimp only
        by_cases hne : n ≠ exp
        · rw [if_pos hne]
          dsimp only
          omega
        · rw [if_neg hne]
          by_cases htc : (limit - (copied + (n : Int))) ⊓ B = 0
          · rw [if_pos htc]
            dsimp only
            omega
          · rw [if_neg htc]
            rcases hsr : (subR sr ((limit - (copied + (n : Int))) ⊓ B).toNat).1 with e | r1
            · dsimp only
              omega
            · dsimp only
              omega
  | succ f ih =>
    intro sr sw copied ph hcop hbound
    rcases ph with r | ⟨exp, w⟩
    · rcases r with e | r
      · simp [runCloop]
        omega
      · have hr := hbound r rfl
        rw [runCloop]
        dsimp only
        by_cases hr0 : r = 0
        · rw [if_pos hr0]
          dsimp only
          omega
        · rw [if_neg hr0]
          rcases hsw : (subW sw r).1 with e | w1
          · dsimp only
            omega
          · dsimp only
            have hw1 : ∀ v : Nat, w1 = Except.ok v → v ≤ r := by
              intro v hv
              subst hv
              exact hsubW _ _ _ hsw
            have hrec := ih sr (subW sw r).2 copied (PhaseC.wrPhase r w1) hcop
              ⟨hr, hw1⟩
            push_cast
            omega
    · rcases w with e | n
      · simp [runCloop]
        omega
      · obtain ⟨hexp, hbw⟩ := hbound
        have hn := hbw n rfl
        rw [runCloop]
        dsimp only
        by_cases hne : n ≠ exp
        · rw [if_pos hne]
          dsimp only
          omega
        · rw [if_neg hne]
          by_cases htc : (limit - (copied + (n : Int))) ⊓ B = 0
          · rw [if_pos htc]
            dsimp only
            omega
          · rw [if_neg htc]
            rcases hsr : (subR sr ((limit - (copied + (n : Int))) ⊓ B).toNat).1 with e | r1
            · dsimp only
              omega
            · dsimp only
              have hcop1 : copied + (n : Int) ≤ limit := by omega
              have htnn : (0 : Int) ≤ (limit - (copied + (n : Int))) ⊓ B :=
                le_inf (by omega) hB
              have hcast : ((((limit - (copied + (n : Int))) ⊓ B).toNat : Int)) =
                  (limit - (copied + (n : Int))) ⊓ B := Int.toNat_of_nonneg htnn
              have hXle : (limit - (copied + (n : Int))) ⊓ B ≤
                  limit - (copied + (n : Int)) := inf_le_left
              have hr1b : ∀ v : Nat, r1 = Except.ok v →
                  (v : Int) ≤ limit - (copied + (n : Int)) := by
                intro v hv
                subst hv
                have := hsubR _ _ _ hsr
                omega
              have hrec := ih (subR sr ((limit - (copied + (n : Int))) ⊓ B).toNat).2
                sw (copied + (n : Int)) (PhaseC.rdPhase r1) hcop1 hr1b
              push_cast
              omega

/-- Helper: the async-writer/sync-reader engine over an in-memory source of
`M ≥ L` bytes and an accept-all async writer, entered after `c + w` bytes
have been read (`w` of them just acknowledged by the writer), terminates with
`NoError` having written exactly `L - c` further bytes in total. -/
theorem runBloop_concrete (L B M : Nat) (hB : 1 ≤ B) (hM : L ≤ M) :
    ∀ fuel c w sw, c + w ≤ L → L - (c + w) ≤ fuel →
      (runBloop (byteSourceSync M) acceptAllAsyncWriter (L : Int) (B : Int) fuel
          (c + w) sw (c : Int) w (Except.ok w)).outcome = CopyOutcome.done none ∧
      (runBloop (byteSourceSync M) acceptAllAsyncWriter (L : Int) (B : Int) fuel
          (c + w) sw (c : Int) w (Except.ok w)).written = L - c := by
  intro fuel
  induction fuel with
  | zero =>
    intro c w sw hcw hf
    have hend : c + w = L := by omega
    rw [runBloop]
    dsimp only
    rw [if_neg (fun h => h rfl)]
    have htc : ((L : Int) - ((c : Int) + (w : Nat))) ⊓ (B : Int) = 0 := by
      push_cast
      omega
    rw [if_pos htc]
    exact ⟨rfl, by show w = L - c; omega⟩
  | succ f ih =>
    intro c w sw hcw hf
    rw [runBloop]
    dsimp only
    rw [if_neg (fun h => h rfl)]
    by_cases hend : c + w = L
    · have htc : ((L : Int) - ((c : Int) + (w : Nat))) ⊓ (B : Int) = 0 := by
        push_cast
        omega
      rw [if_pos htc]
      exact ⟨rfl, by show w = L - c; omega⟩
    · have htc : ¬ (((L : Int) - ((c : Int) + (w : Nat))) ⊓ (B : Int) = 0) := by
        push_cast
        omega
      rw [if_neg htc]
      have hreq : (((L : Int) - ((c : Int) + (w : Nat))) ⊓ (B : Int)).toNat
          = min (L - (c + w)) B := by
        push_cast
        omega
      rw [hreq]
      dsimp only [byteSourceSync]
      have hmin2 : min (min (L - (c + w)) B) (M - (c + w)) = min (L - (c + w)) B := by
        omega
      rw [hmin2]
      have hr0 : ¬ (min (L - (c + w)) B = 0) := by omega
      rw [if_neg hr0]
      dsimp only [acceptAllAsyncWriter]
      have hrec := ih (c + w) (min (L - (c + w)) B) sw (by omega) (by omega)
      rw [Nat.cast_add] at hrec
      refine ⟨hrec.1, ?_⟩
      show w + _ = L - c
      rw [hrec.2]
      omega

/-- Helper: the both-async engine over an in-memory source of `M ≥ L` bytes
and an accept-all async writer, entered at a read completion of
`min (L - c, B)` bytes with `copied = c`, terminates with `NoError` having
written exactly the remaining `L - c` bytes. -/
theorem runCloop_concrete (L B M : Nat) (hB : 1 ≤ B) (hM : L ≤ M) :
    ∀ fuel c sw, c ≤ L → 2 * (L - c) ≤ fuel →
      (runCloop (byteSourceOracle M) acceptAllAsyncWriter (L : Int) (B : Int) fuel
          (c + min (L - c) B) sw (c : Int)
          (PhaseC.rdPhase (Except.ok (min (L - c) B)))).outcome = CopyOutcome.done none ∧
      (runCloop (byteSourceOracle M) acceptAllAsyncWriter (L : Int) (B : Int) fuel
          (c + min (L - c) B) sw (c : Int)
          (PhaseC.rdPhase (Except.ok (min (L - c) B)))).written = L - c := by
  intro fuel
  induction fuel using Nat.strong_induction_on with
  | _ fuel ih =>
    intro c sw hc hf
    by_cases hk0 : min (L - c) B = 0
    · rw [hk0, runCloop]
      dsimp only
      rw [if_pos rfl]
      exact ⟨rfl, by show 0 = L - c; omega⟩
    · obtain ⟨f, rfl⟩ : ∃ f, fuel = f + 1 + 1 := ⟨fuel - 2, by omega⟩
      rw [runCloop]
      dsimp only
      rw [if_neg hk0]
      dsimp only [acceptAllAsyncWriter]
      rw [runCloop]
      dsimp only
      rw [if_neg (fun h => h rfl)]
      by_cases hend : c + min (L - c) B = L
      · have htc : ((L : Int) - ((c : Int) + ((min (L - c) B : Nat) : Int))) ⊓ (B : Int)
            = 0 := by
          push_cast
          omega
        rw [if_pos htc]
        exact ⟨rfl, by show min (L - c) B = L - c; omega⟩
      · have htc : ¬ (((L : Int) - ((c : Int) + ((min (L - c) B : Nat) : Int))) ⊓ (B : Int)
            = 0) := by
          push_cast
          omega
        rw [if_neg htc]
        have hreq : (((L : Int) - ((c : Int) + ((min (L - c) B : Nat) : Int))) ⊓ (B : Int)).toNat
            = min (L - (c + min (L - c) B)) B := by
          push_cast
          omega
        rw [hreq]
        dsimp only [byteSourceOracle]
        have hmin2 : min (min (L - (c + min (L - c) B)) B) (M - (c + min (L - c) B))
            = min (L - (c + min (L - c) B)) B := by omega
        rw [hmin2]
        have hrec := ih f (by omega) (c + min (L - c) B) sw (by omega) (by omega)
        rw [Nat.cast_add] at hrec
        refine ⟨hrec.1, ?_⟩
        show min (L - c) B + _ = L - c
        rw [hrec.2]
        omega

/-- Helper: request sizing for a whole `runA` run, initial submission
included. -/
theorem runA_readReqs (wr : Nat → Nat → Except Err Nat × Nat)
    (sub : Nat → Nat → SubOutcome × Nat) (limit B : Int) (s1 s2 fuel : Nat) :
    ∀ p ∈ (runA wr sub limit B s1 s2 fuel).readReqs,
      p.1 = (min (limit - p.2) B).toNat := by
  rw [runA]
  rcases hs : (sub s2 (min limit B).toNat).1 with e | r
  · dsimp only
    intro p hp
    simp only [List.mem_singleton] at hp
    subst hp
    show (min limit B).toNat = (min (limit - 0) B).toNat
    norm_num
  · dsimp only
    intro p hp
    rcases List.mem_cons.mp hp with h1 | h2
    · subst h1
      show (min limit B).toNat = (min (limit - 0) B).toNat
      norm_num
    · exact runAloop_readReqs wr sub limit B fuel s1 _ 0 r p h2

/-- Helper: request sizing for a whole `runC` run, initial submission
included. -/
theorem runC_readReqs (subR subW : Nat → Nat → SubOutcome × Nat)
    (limit B : Int) (s1 s2 fuel : Nat) :
    ∀ p ∈ (runC subR subW limit B s1 s2 fuel).readReqs,
      p.1 = (min (limit - p.2) B).toNat := by
  rw [runC]
  rcases hs : (subR s1 (min limit B).toNat).1 with e | r
  · dsimp only
    intro p hp
    simp only [List.mem_singleton] at hp
    subst hp
    show (min limit B).toNat = (min (limit - 0) B).toNat
    norm_num
  · dsimp only
    intro p hp
    rcases List.mem_cons.mp hp with h1 | h2
    · subst h1
      show (min limit B).toNat = (min (limit - 0) B).toNat
      norm_num
    · exact runCloop_readReqs subR subW limit B fuel _ s2 0 (PhaseC.rdPhase r) p h2

/-- Helper: total bytes handed to the writer by a whole `runA` run stay
within the limit. -/
theorem runA_written_le (wr : Nat → Nat → Except Err Nat × Nat)
    (sub : Nat → Nat → SubOutcome × Nat) (limit B : Int)
    (hwr : ∀ s n m, (wr s n).1 = Except.ok m → m ≤ n)
    (hsub : ∀ s n r2, (sub s n).1 = SubOutcome.completes (Except.ok r2) → r2 ≤ n)
    (hB : 0 ≤ B) (hL : 0 ≤ limit) (s1 s2 fuel : Nat) :
    ((runA wr sub limit B s1 s2 fuel).written : Int) ≤ limit := by
  rw [runA]
  rcases hs : (sub s2 (min limit B).toNat).1 with e | r
  · dsimp only
    simpa using hL
  · dsimp only
    have h0 : (0 : Int) ≤ min limit B := le_inf hL hB
    have hcast := Int.toNat_of_nonneg h0
    have hml : min limit B ≤ limit := inf_le_left
    have hb : ∀ v : Nat, r = Except.ok v → (v : Int) ≤ limit - 0 := by
      intro v hv
      subst hv
      have hv2 := hsub _ _ _ hs
      omega
    have hmain := runAloop_written_le wr sub limit B hwr hsub hB fuel s1
      (sub s2 (min limit B).toNat).2 0 r (by omega) hb
    omega

/-- Helper: total bytes handed to the writer by a whole `runB` run stay
within the limit. -/
theorem runB_written_le (rd : Nat → Nat → Except Err Nat × Nat)
    (subW : Nat → Nat → SubOutcome × Nat) (limit B : Int)
    (hrd : ∀ s n m, (rd s n).1 = Except.ok m → m ≤ n)
    (hsubW : ∀ s n r2, (subW s n).1 = SubOutcome.completes (Except.ok r2) → r2 ≤ n)
    (hB : 0 ≤ B) (hL : 0 ≤ limit) (s1 s2 fuel : Nat) :
    ((runB rd subW limit B s1 s2 fuel).written : Int) ≤ limit := by
  rw [runB]
  have hb : ∀ v : Nat, (Except.ok 0 : Except Err Nat) = Except.ok v → v ≤ 0 := by
    intro v hv
    cases hv
    omega
  have hmain := runBloop_written_le rd subW limit B hrd hsubW hB fuel s1 s2 0 0
    (Except.ok 0) (by omega) (by norm_num; omega) hb
  omega

/-- Helper: total bytes handed to the writer by a whole `runC` run stay
within the limit. -/
theorem runC_written_le (subR subW : Nat → Nat → SubOutcome × Nat) (limit B : Int)
    (hsubR : ∀ s n r2, (subR s n).1 = SubOutcome.completes (Except.ok r2) → r2 ≤ n)
    (hsubW : ∀ s n r2, (subW s n).1 = SubOutcome.completes (Except.ok r2) → r2 ≤ n)
    (hB : 0 ≤ B) (hL : 0 ≤ limit) (s1 s2 fuel : Nat) :
    ((runC subR subW limit B s1 s2 fuel).written : Int) ≤ limit := by
  rw [runC]
  rcases hs : (subR s1 (min limit B).toNat).1 with e | r
  · dsimp only
    simpa using hL
  · dsimp only
    have h0 : (0 : Int) ≤ min limit B := le_inf hL hB
    have hcast := Int.toNat_of_nonneg h0
    have hml : min limit B ≤ limit := inf_le_left
    have hb : ∀ v : Nat, r = Except.ok v → (v : Int) ≤ limit - 0 := by
      intro v hv
      subst hv
      have hv2 := hsubR _ _ _ hs
      omega
    have hmain := runCloop_written_le subR subW limit B hsubR hsubW hB fuel
      (subR s1 (min limit B).toNat).2 s2 0 (PhaseC.rdPhase r) (by omega) hb
    omega

/-- Helper: a full `runA` over an accept-all writer and an in-memory source
with at least `L` bytes transfers exactly `L` bytes and invokes the handler
exactly once with `NoError`. -/
theorem runA_concrete (L B M : Nat) (hB : 1 ≤ B) (hM : L ≤ M) (sw : Nat) :
    (runA acceptAllWriter (byteSourceOracle M) (L : Int) (B : Int) sw 0 L).outcome =
      CopyOutcome.done none ∧
    (runA acceptAllWriter (byteSourceOracle M) (L : Int) (B : Int) sw 0 L).written = L ∧
    (runA acceptAllWriter (byteSourceOracle M) (L : Int) (B : Int) sw 0 L).calls =
      [⟨none, some FunctorState.cleared⟩] := by
  have hcalls := runAloop_calls acceptAllWriter (byteSourceOracle M) (L : Int) (B : Int)
  rw [runA]
  dsimp only [byteSourceOracle]
  have hreq : ((min (L : Int) (B : Int)).toNat) = min L B := by
    push_cast
    omega
  rw [hreq]
  have hmin2 : min (min L B) (M - 0) = min L B := by omega
  rw [hmin2]
  simp only [Nat.zero_add]
  have hrec := runAloop_concrete L B M hB hM L 0 sw (by omega) (by omega)
  simp only [Nat.sub_zero, Nat.zero_add, Nat.cast_zero] at hrec
  refine ⟨hrec.1, hrec.2, ?_⟩
  have h := hcalls L sw (min L B) 0 (Except.ok (min L B))
  rw [hrec.1] at h
  simpa [expectedCalls] using h

/-- Helper: a full `runB` over an in-memory source with at least `L` bytes
and an accept-all async writer transfers exactly `L` bytes and invokes the
handler exactly once with `NoError`. -/
theorem runB_concrete_full (L B M : Nat) (hB : 1 ≤ B) (hM : L ≤ M) (sw : Nat) :
    (runB (byteSourceSync M) acceptAllAsyncWriter (L : Int) (B : Int) 0 sw L).outcome =
      CopyOutcome.done none ∧
    (runB (byteSourceSync M) acceptAllAsyncWriter (L : Int) (B : Int) 0 sw L).written = L ∧
    (runB (byteSourceSync M) acceptAllAsyncWriter (L : Int) (B : Int) 0 sw L).calls =
      [⟨none, some FunctorState.cleared⟩] := by
  have hrec := runBloop_concrete L B M hB hM L 0 0 sw (by omega) (by omega)
  simp only [Nat.add_zero, Nat.cast_zero, Nat.sub_zero] at hrec
  rw [runB]
  refine ⟨hrec.1, hrec.2, ?_⟩
  have h := runBloop_calls (byteSourceSync M) acceptAllAsyncWriter (L : Int) (B : Int)
    L 0 sw 0 0 (Except.ok 0)
  rw [hrec.1] at h
  simpa [expectedCalls] using h

/-- Helper: a full `runC` over an in-memory source with at least `L` bytes
and an accept-all async writer transfers exactly `L` bytes and invokes the
handler exactly once with `NoError`. -/
theorem runC_concrete_full (L B M : Nat) (hB : 1 ≤ B) (hM : L ≤ M) (sw : Nat) :
    (runC (byteSourceOracle M) acceptAllAsyncWriter (L : Int) (B : Int) 0 sw
        (2 * L)).outcome = CopyOutcome.done none ∧
    (runC (byteSourceOracle M) acceptAllAsyncWriter (L : Int) (B : Int) 0 sw
        (2 * L)).written = L ∧
    (runC (byteSourceOracle M) acceptAllAsyncWriter (L : Int) (B : Int) 0 sw
        (2 * L)).calls = [⟨none, some FunctorState.cleared⟩] := by
  have hcalls := runCloop_calls (byteSourceOracle M) acceptAllAsyncWriter (L : Int) (B : Int)
  rw [runC]
  dsimp only [byteSourceOracle]
  have hreq : ((min (L : Int) (B : Int)).toNat) = min L B := by
    push_cast
    omega
  rw [hreq]
  have hmin2 : min (min L B) (M - 0) = min L B := by omega
  rw [hmin2]
  simp only [Nat.zero_add]
  have hrec := runCloop_concrete L B M hB hM (2 * L) 0 sw (by omega) (by omega)
  simp only [Nat.sub_zero, Nat.zero_add, Nat.cast_zero] at hrec
  refine ⟨hrec.1, hrec.2, ?_⟩
  have h := hcalls (2 * L) (min L B) sw 0 (PhaseC.rdPhase (Except.ok (min L B)))
  rw [hrec.1] at h
  simpa [expectedCalls] using h

/-- Claim C5: for every `AsyncCopy` shape with a finite limit `L` and buffer
size `B`, and every reader/writer/event-loop behaviour respecting the
capability contracts (no oracle reports more bytes than requested/offered):
every read request issued — the initial one included — is sized
`min(remaining buffer capacity, remaining limit)` (the scratch buffer is
reused whole, so its remaining capacity is `B`); at most `L` bytes in total
are handed to the writer; and over a source offering at least `2 * L` bytes
with a writer accepting everything, each shape transfers exactly `L` bytes
and invokes the finished handler exactly once, with `NoError`, through
`CallFinishedHandler`. -/
theorem asyncCopy_limit_enforcement (L B M : Nat) (hB : 1 ≤ B) (hM : 2 * L ≤ M)
    (wr rd : Nat → Nat → Except Err Nat × Nat)
    (subR subW : Nat → Nat → SubOutcome × Nat)
    (hwr : ∀ s n m, (wr s n).1 = Except.ok m → m ≤ n)
    (hrd : ∀ s n m, (rd s n).1 = Except.ok m → m ≤ n)
    (hsubR : ∀ s n r2, (subR s n).1 = SubOutcome.completes (Except.ok r2) → r2 ≤ n)
    (hsubW : ∀ s n r2, (subW s n).1 = SubOutcome.completes (Except.ok r2) → r2 ≤ n)
    (s1 s2 fuel : Nat) :
    (∀ p ∈ (runA wr subR (L : Int) (B : Int) s1 s2 fuel).readReqs,
      p.1 = (min ((L : Int) - p.2) (B : Int)).toNat) ∧
    (∀ p ∈ (runB rd subW (L : Int) (B : Int) s1 s2 fuel).readReqs,
      p.1 = (min ((L : Int) - p.2) (B : Int)).toNat) ∧
    (∀ p ∈ (runC subR subW (L : Int) (B : Int) s1 s2 fuel).readReqs,
      p.1 = (min ((L : Int) - p.2) (B : Int)).toNat) ∧
    (runA wr subR (L : Int) (B : Int) s1 s2 fuel).written ≤ L ∧
    (runB rd subW (L : Int) (B : Int) s1 s2 fuel).written ≤ L ∧
    (runC subR subW (L : Int) (B : Int) s1 s2 fuel).written ≤ L ∧
    ((runA acceptAllWriter (byteSourceOracle M) (L : Int) (B : Int) s1 0 L).outcome =
        CopyOutcome.done none ∧
      (runA acceptAllWriter (byteSourceOracle M) (L : Int) (B : Int) s1 0 L).written = L ∧
      (runA acceptAllWriter (byteSourceOracle M) (L : Int) (B : Int) s1 0 L).calls =
        [⟨none, some FunctorState.cleared⟩]) ∧
    ((runB (byteSourceSync M) acceptAllAsyncWriter (L : Int) (B : Int) 0 s2 L).outcome =
        CopyOutcome.done none ∧
      (runB (byteSourceSync M) acceptAllAsyncWriter (L : Int) (B : Int) 0 s2 L).written = L ∧
      (runB (byteSourceSync M) acceptAllAsyncWriter (L : Int) (B : Int) 0 s2 L).calls =
        [⟨none, some FunctorState.cleared⟩]) ∧
    ((runC (byteSourceOracle M) acceptAllAsyncWriter (L : Int) (B : Int) 0 s2
        (2 * L)).outcome = CopyOutcome.done none ∧
      (runC (byteSourceOracle M) acceptAllAsyncWriter (L : Int) (B : Int) 0 s2
        (2 * L)).written = L ∧
      (runC (byteSourceOracle M) acceptAllAsyncWriter (L : Int) (B : Int) 0 s2
        (2 * L)).calls = [⟨none, some FunctorState.cleared⟩]) := by
  have hBi : (0 : Int) ≤ (B : Int) := by omega
  have hLi : (0 : Int) ≤ (L : Int) := by omega
  have hML : L ≤ M := by omega
  refine ⟨runA_readReqs wr subR _ _ s1 s2 fuel,
    runBloop_readReqs rd subW _ _ fuel s1 s2 0 0 (Except.ok 0),
    runC_readReqs subR subW _ _ s1 s2 fuel, ?_, ?_, ?_,
    runA_concrete L B M hB hML s1,
    runB_concrete_full L B M hB hML s2,
    runC_concrete_full L B M hB hML s2⟩
  · have h := runA_written_le wr subR (L : Int) (B : Int) hwr hsubR hBi hLi s1 s2 fuel
    omega
  · have h := runB_written_le rd subW (L : Int) (B : Int) hrd hsubW hBi hLi s1 s2 fuel
    omega
  · have h := runC_written_le subR subW (L : Int) (B : Int) hsubR hsubW hBi hLi s1 s2 fuel
    omega

/-- Witness for C5: limit 2, buffer 3, a 5-byte source and accept-all
writers — the sync-writer/async-reader shape transfers exactly 2 bytes. -/
theorem asyncCopy_limit_enforcement_witness :
    (runA acceptAllWriter (byteSourceOracle 5) ((2 : Nat) : Int) ((3 : Nat) : Int)
      0 0 2).written = 2 :=
  ((asyncCopy_limit_enforcement 2 3 5 (by omega) (by omega)
    acceptAllWriter acceptAllWriter (byteSourceOracle 5) (byteSourceOracle 5)
    (by intro s n m h
        simp [acceptAllWriter] at h
        omega)
    (by intro s n m h
        simp [acceptAllWriter] at h
        omega)
    (by intro s n r2 h
        simp [byteSourceOracle] at h
        omega)
    (by intro s n r2 h
        simp [byteSourceOracle] at h
        omega)
    0 0 2).2.2.2.2.2.2.1).2.1

end MenderIo
